import Mathlib

/-!
A shallow embedding of `http_server.py`: the wire codec
(`process_request`, `send_response`), the dispatcher (`handle_request`),
the three handlers and the `json_content` wrapper, together with an
executable model of the parts of Python's `json` module that the server
exercises.

Modelling conventions:
* a Python `str` is a sequence of unicode code points, modelled as
  `List Char` (so `len` is `List.length`);
* a Python `dict` is an association list with unique keys; `d[k] = v`
  keeps the position of an overwritten key, as CPython does;
* Python exceptions are the error side of `Except`;
* JSON numbers are modelled as integers.  The server's endpoints only
  exchange integer lists, and floating point is outside the model: the
  number grammar accepted by the `loads` model is `-?(0|[1-9][0-9]*)`
  and a fraction or exponent makes it reject, where Python would build
  a float;
* `json.loads` accepts lone UTF-16 surrogate escapes and builds Python
  strings containing surrogates; Lean `Char` cannot represent them, so
  the `loads` model rejects lone surrogates.  Paired surrogate escapes
  (as produced by `json.dumps` for astral characters) are combined
  exactly as Python combines them.
-/

/-- Python strings as lists of unicode code points. -/
abbrev Str := List Char

/-- The `CRLF` constant of the source (line 9). -/
def CRLF : Str := ['\r', '\n']

/-- The separator of a header line, the string given to `split` on
line 159 of the source. -/
def colonSpace : Str := [':', ' ']

/-- An opening curly brace character, written by codepoint to keep brace
characters out of the literals of this file. -/
def lbrace : Char := Char.ofNat 123

/-- A closing curly brace character. -/
def rbrace : Char := Char.ofNat 125

/-- Decides whether the pattern `p` begins the string `s`. -/
def startsWith : Str → Str → Bool
  | [], _ => true
  | _ :: _, [] => false
  | p :: ps, c :: cs => p == c && startsWith ps cs

/-- Worker for `pySplit`, structurally recursive on a fuel bound so that
the function reduces in the kernel.  The fuel is adequate whenever it is
at least the length of the string and the separator is nonempty. -/
def pySplitAux (sep : Str) : Nat → Str → List Str
  | _, [] => [[]]
  | 0, s => [s]
  | fuel + 1, c :: cs =>
    if sep ≠ [] ∧ startsWith sep (c :: cs) = true then
      [] :: pySplitAux sep fuel ((c :: cs).drop sep.length)
    else
      match pySplitAux sep fuel cs with
      | t :: ts => (c :: t) :: ts
      | [] => [[c]]

/-- Python `s.split(sep)` for a nonempty separator `sep`: the maximal
greedy left-to-right decomposition at non-overlapping occurrences of
`sep`.  As in Python, the result is never empty, `"".split(sep)` is
`[""]`, and adjacent occurrences produce empty parts. -/
def pySplit (sep s : Str) : List Str := pySplitAux sep s.length s

/-- Python `sep.join(parts)`. -/
def pyJoin (sep : Str) : List Str → Str
  | [] => []
  | [part] => part
  | part :: parts => part ++ sep ++ pyJoin sep parts

/-- Python `d[k]` as an optional lookup on an association list with
unique keys (the first match is returned). -/
def dictLookup {β : Type} : List (Str × β) → Str → Option β
  | [], _ => none
  | (k, v) :: rest, key => if k = key then some v else dictLookup rest key

/-- Python `d[k] = v` on an association list: an existing key keeps its
position and gets the new value, a fresh key is appended. -/
def dictSet {β : Type} : List (Str × β) → Str → β → List (Str × β)
  | [], key, val => [(key, val)]
  | (k, v) :: rest, key, val =>
    if k = key then (k, val) :: rest else (k, v) :: dictSet rest key val

/-- Python `dict(pairs)`: sequential insertion of the pairs into an
empty dictionary. -/
def buildDict {β : Type} (pairs : List (Str × β)) : List (Str × β) :=
  pairs.foldl (fun d kv => dictSet d kv.1 kv.2) []

/-- Decides that the keys of an association list are pairwise distinct,
so that it denotes a Python dictionary. -/
def nodupKeysB {β : Type} : List (Str × β) → Bool
  | [] => true
  | kv :: rest => !(rest.any (fun kv2 => kv2.1 == kv.1)) && nodupKeysB rest

/-- Python slicing `l[1:-2]`, the header-line slice taken on line 112 of
the source. -/
def sliceOneToNegTwo {α : Type} (l : List α) : List α :=
  (l.take (l.length - 2)).drop 1

/-! ### The JSON value model -/

/-- JSON values as the server exchanges them.  Objects carry their
members in insertion order, as Python dictionaries do. -/
inductive Json : Type where
  | null : Json
  | bool (b : Bool) : Json
  | num (n : Int) : Json
  | str (s : Str) : Json
  | arr (elems : List Json) : Json
  | obj (members : List (Str × Json)) : Json

/-- Python truthiness of a parsed JSON value (`None` is handled
separately, at its call site). -/
def Json.truthy : Json → Bool
  | .null => false
  | .bool b => b
  | .num n => !(n == 0)
  | .str s => !s.isEmpty
  | .arr elems => !elems.isEmpty
  | .obj members => !members.isEmpty

mutual
/-- A JSON value all of whose objects have pairwise distinct keys: the
values that faithfully denote Python dictionaries. -/
def Json.WFb : Json → Bool
  | .null => true
  | .bool _ => true
  | .num _ => true
  | .str _ => true
  | .arr elems => Json.wfListB elems
  | .obj members => nodupKeysB members && Json.wfMembersB members
def Json.wfListB : List Json → Bool
  | [] => true
  | x :: xs => Json.WFb x && Json.wfListB xs
def Json.wfMembersB : List (Str × Json) → Bool
  | [] => true
  | kv :: kvs => Json.WFb kv.2 && Json.wfMembersB kvs
end

/-! ### The serializer: `json.dumps` with its default options -/

/-- The decimal digit character of `d < 10`. -/
def digitChar (d : Nat) : Char := Char.ofNat (48 + d)

/-- Decimal digits of `n`, most significant first, empty for zero.  The
fuel argument makes the recursion structural; it is adequate whenever it
is at least `n`. -/
def natToStrAux : Nat → Nat → Str
  | _, 0 => []
  | 0, _ + 1 => []
  | fuel + 1, n + 1 => natToStrAux fuel ((n + 1) / 10) ++ [digitChar ((n + 1) % 10)]

/-- Python `str(n)` for a natural number. -/
def natToStr (n : Nat) : Str := if n = 0 then ['0'] else natToStrAux n n

/-- Python `str(i)` for an integer. -/
def intToStr : Int → Str
  | .ofNat n => natToStr n
  | .negSucc m => '-' :: natToStr (m + 1)

/-- The lowercase hexadecimal digit of `d < 16`, as `json.dumps` writes
unicode escapes. -/
def hexDigit (d : Nat) : Char :=
  if d < 10 then Char.ofNat (48 + d) else Char.ofNat (87 + d)

/-- A `\uXXXX` escape for a code unit `n < 0x10000`. -/
def uEsc (n : Nat) : Str :=
  ['\\', 'u', hexDigit (n / 4096 % 16), hexDigit (n / 256 % 16),
   hexDigit (n / 16 % 16), hexDigit (n % 16)]

/-- One character escaped as CPython's `py_encode_basestring_ascii`
writes it (`json.dumps` default, `ensure_ascii=True`): the two-character
escapes for backslash, quote and the five control shorthands, the
character itself when printable ASCII, and `\uXXXX` escapes otherwise,
astral characters as a UTF-16 surrogate pair. -/
def escChar (c : Char) : Str :=
  if c = '"' then ['\\', '"']
  else if c = '\\' then ['\\', '\\']
  else if c.toNat = 10 then ['\\', 'n']
  else if c.toNat = 13 then ['\\', 'r']
  else if c.toNat = 9 then ['\\', 't']
  else if c.toNat = 8 then ['\\', 'b']
  else if c.toNat = 12 then ['\\', 'f']
  else if 32 ≤ c.toNat ∧ c.toNat ≤ 126 then [c]
  else if c.toNat < 65536 then uEsc c.toNat
  else uEsc (55296 + (c.toNat - 65536) / 1024) ++ uEsc (56320 + (c.toNat - 65536) % 1024)

/-- The escaped body of a serialized JSON string, without the quotes. -/
def escBody (s : Str) : Str := (s.map escChar).flatten

mutual
/-- Python `json.dumps(v)` with the default arguments: item separator
a comma and a space, key separator a colon and a space. -/
def dumpsVal : Json → Str
  | .null => "null".toList
  | .bool true => "true".toList
  | .bool false => "false".toList
  | .num i => intToStr i
  | .str s => '"' :: escBody s ++ ['"']
  | .arr [] => ['[', ']']
  | .arr (x :: xs) => '[' :: (dumpsVal x ++ dumpsArrTail xs) ++ [']']
  | .obj [] => [lbrace, rbrace]
  | .obj ((k, v) :: kvs) =>
    lbrace :: (('"' :: escBody k ++ ['"']) ++ ':' :: ' ' :: dumpsVal v ++ dumpsObjTail kvs)
      ++ [rbrace]
def dumpsArrTail : List Json → Str
  | [] => []
  | x :: xs => ',' :: ' ' :: dumpsVal x ++ dumpsArrTail xs
def dumpsObjTail : List (Str × Json) → Str
  | [] => []
  | (k, v) :: kvs =>
    ',' :: ' ' :: (('"' :: escBody k ++ ['"']) ++ ':' :: ' ' :: dumpsVal v ++ dumpsObjTail kvs)
end

/-! ### The parser: `json.loads` on the modelled grammar -/

/-- JSON whitespace. -/
def isWsChar (c : Char) : Bool := c == ' ' || c == '\t' || c == '\n' || c == '\r'

/-- Drops leading JSON whitespace. -/
def skipWs : Str → Str
  | [] => []
  | c :: cs => if isWsChar c then skipWs cs else c :: cs

/-- Decides a decimal digit character. -/
def isDigitChar (c : Char) : Bool := 48 ≤ c.toNat && c.toNat ≤ 57

/-- The value of one hexadecimal digit, either case. -/
def parseHex (c : Char) : Option Nat :=
  if 48 ≤ c.toNat ∧ c.toNat ≤ 57 then some (c.toNat - 48)
  else if 97 ≤ c.toNat ∧ c.toNat ≤ 102 then some (c.toNat - 87)
  else if 65 ≤ c.toNat ∧ c.toNat ≤ 70 then some (c.toNat - 55)
  else none

/-- The value of a four-digit hexadecimal escape. -/
def hexQuad (a b c d : Char) : Option Nat :=
  match parseHex a, parseHex b, parseHex c, parseHex d with
  | some va, some vb, some vc, some vd => some (((va * 16 + vb) * 16 + vc) * 16 + vd)
  | _, _, _, _ => none

/-- Decodes a single-character escape shorthand, as Python's
`json.loads` accepts after a backslash. -/
def unescShort (e : Char) : Option Char :=
  if e = '"' ∨ e = '\\' ∨ e = '/' then some e
  else if e = 'n' then some '\n'
  else if e = 'r' then some '\r'
  else if e = 't' then some '\t'
  else if e = 'b' then some (Char.ofNat 8)
  else if e = 'f' then some (Char.ofNat 12)
  else none

/-- Reads four hexadecimal digits after a `\u` escape. -/
def parseUHex : Str → Option (Nat × Str)
  | a :: b :: c :: d :: r =>
    match hexQuad a b c d with
    | none => none
    | some n => some (n, r)
  | _ => none

/-- Reads a `\uXXXX` escape whose value is a low surrogate, the
mandatory continuation of a high-surrogate escape. -/
def parseLowEsc : Str → Option (Nat × Str)
  | c1 :: c2 :: r =>
    if c1 = '\\' ∧ c2 = 'u' then
      match parseUHex r with
      | some (m, r2) => if 56320 ≤ m ∧ m < 57344 then some (m, r2) else none
      | none => none
    else none
  | _ => none

/-- Decodes one escape sequence following a backslash, returning the
decoded character and the remaining input.  A `\uXXXX` escape in the
high-surrogate range must be followed by a low-surrogate escape and the
pair is combined as Python combines it (see the module comment on lone
surrogates); any other escape is a shorthand. -/
def parseEscape : Str → Option (Char × Str)
  | [] => none
  | e :: r =>
    if e = 'u' then
      match parseUHex r with
      | none => none
      | some (n, r1) =>
        if 55296 ≤ n ∧ n < 56320 then
          match parseLowEsc r1 with
          | none => none
          | some (m, r2) => some (Char.ofNat (65536 + (n - 55296) * 1024 + (m - 56320)), r2)
        else if 56320 ≤ n ∧ n < 57344 then none
        else some (Char.ofNat n, r1)
    else
      match unescShort e with
      | some ch => some (ch, r)
      | none => none

/-- The worker of `parseStrBody`, structural on a fuel bound adequate
whenever it exceeds the input length (every decoded character consumes
at least one input character). -/
def parseStrBodyF : Nat → Str → Option (Str × Str)
  | 0, _ => none
  | _ + 1, [] => none
  | fuel + 1, c :: rest =>
    if c = '"' then some ([], rest)
    else if c = '\\' then
      match parseEscape rest with
      | none => none
      | some (ch, r) => (parseStrBodyF fuel r).map (fun p => (ch :: p.1, p.2))
    else if c.toNat < 32 then none
    else (parseStrBodyF fuel rest).map (fun p => (c :: p.1, p.2))

/-- Parses the contents of a JSON string after the opening quote,
returning the decoded characters and the input after the closing quote.
Escapes are decoded as Python's `json.loads` decodes them, and an
unescaped control character is rejected as in Python's strict mode. -/
def parseStrBody (s : Str) : Option (Str × Str) := parseStrBodyF (s.length + 1) s

/-- Consumes a run of decimal digits, folding them onto `acc`. -/
def parseDigitsAcc (acc : Nat) : Str → Nat × Str
  | [] => (acc, [])
  | c :: cs =>
    if isDigitChar c then parseDigitsAcc (acc * 10 + (c.toNat - 48)) cs
    else (acc, c :: cs)

/-- Decides whether the remaining input would extend an integer literal
into a fraction or an exponent, which the model rejects (floating point
is outside the model). -/
def floatFollows : Str → Bool
  | [] => false
  | c :: _ => c == '.' || c == 'e' || c == 'E'

/-- Decides that the remaining input cannot extend a serialized value:
it is empty or starts with a comma, a closing bracket, a closing brace
or whitespace.  Exactly the remainders the round-trip lemma meets. -/
def restStopB : Str → Bool
  | [] => true
  | c :: _ => c == ',' || c == ']' || c == rbrace || isWsChar c

/-- Parses an unsigned JSON integer: `0`, or a nonzero digit followed by
digits; a leading zero never absorbs further digits, as in the JSON
number grammar. -/
def parseUNum : Str → Option (Nat × Str)
  | [] => none
  | c :: r =>
    if c = '0' then (if floatFollows r then none else some (0, r))
    else if isDigitChar c then
      match parseDigitsAcc (c.toNat - 48) r with
      | (n, r2) => if floatFollows r2 then none else some (n, r2)
    else none

/-- Parses a JSON integer with its optional sign. -/
def parseNum : Str → Option (Int × Str)
  | [] => none
  | c :: r =>
    if c = '-' then (parseUNum r).map (fun p => (-(p.1 : Int), p.2))
    else (parseUNum (c :: r)).map (fun p => ((p.1 : Int), p.2))

mutual
/-- Parses one JSON value at the head of the input (no leading
whitespace), returning it with the unconsumed remainder.  Structural on
the fuel; `loads` supplies one more than the input length, which is
always adequate. -/
def parseVal : Nat → Str → Option (Json × Str)
  | 0, _ => none
  | fuel + 1, s =>
    match s with
    | [] => none
    | c :: r =>
      if c = 'n' then
        match r with
        | 'u' :: 'l' :: 'l' :: r2 => some (.null, r2)
        | _ => none
      else if c = 't' then
        match r with
        | 'r' :: 'u' :: 'e' :: r2 => some (.bool true, r2)
        | _ => none
      else if c = 'f' then
        match r with
        | 'a' :: 'l' :: 's' :: 'e' :: r2 => some (.bool false, r2)
        | _ => none
      else if c = '"' then
        (parseStrBody r).map (fun p => (Json.str p.1, p.2))
      else if c = '[' then
        match skipWs r with
        | [] => none
        | d :: r2 =>
          if d = ']' then some (.arr [], r2)
          else
            match parseElems fuel (d :: r2) with
            | some (elems, r3) => some (.arr elems, r3)
            | none => none
      else if c = lbrace then
        match skipWs r with
        | [] => none
        | d :: r2 =>
          if d = rbrace then some (.obj [], r2)
          else
            match parseMembers fuel (d :: r2) with
            | some (pairs, r3) => some (.obj (buildDict pairs), r3)
            | none => none
      else
        match parseNum (c :: r) with
        | some (n, r2) => some (.num n, r2)
        | none => none
/-- Parses one or more comma-separated values up to the closing
bracket. -/
def parseElems : Nat → Str → Option (List Json × Str)
  | 0, _ => none
  | fuel + 1, s =>
    match parseVal fuel s with
    | none => none
    | some (v, r) =>
      match skipWs r with
      | [] => none
      | d :: r2 =>
        if d = ',' then
          match parseElems fuel (skipWs r2) with
          | some (vs, r3) => some (v :: vs, r3)
          | none => none
        else if d = ']' then some ([v], r2)
        else none
/-- Parses one or more comma-separated members up to the closing brace,
returning the raw pair list (the caller builds the dictionary, as
Python's object hook `dict(pairs)` does). -/
def parseMembers : Nat → Str → Option (List (Str × Json) × Str)
  | 0, _ => none
  | fuel + 1, s =>
    match s with
    | '"' :: r =>
      match parseStrBody r with
      | none => none
      | some (key, r1) =>
        match skipWs r1 with
        | ':' :: r2 =>
          match parseVal fuel (skipWs r2) with
          | none => none
          | some (v, r3) =>
            match skipWs r3 with
            | [] => none
            | d :: r4 =>
              if d = ',' then
                match parseMembers fuel (skipWs r4) with
                | some (pairs, r5) => some ((key, v) :: pairs, r5)
                | none => none
              else if d = rbrace then some ([(key, v)], r4)
              else none
        | _ => none
    | _ => none
end

/-- Python `json.loads` on the modelled grammar: leading and trailing
whitespace is skipped, and input left over after one value is an error
(Python's `Extra data`). -/
def loads (s : Str) : Option Json :=
  match parseVal (s.length + 1) (skipWs s) with
  | none => none
  | some (v, rest) => if (skipWs rest).isEmpty then some v else none

/-! ### The server data model -/

/-- The Python exceptions the embedded code can raise. -/
inductive PyErr : Type where
  | keyError : PyErr
  | indexError : PyErr
  | valueError : PyErr
  | typeError : PyErr
  | jsonError : PyErr
  | unboundLocal : PyErr
deriving DecidableEq

/-- The `Request` value class (source lines 31 to 50). -/
structure Request : Type where
  method : Str
  resource : Str
  http_version : Str
  headers : List (Str × Str)
  body : Option Json

/-- The value of one response header: the source stores strings and,
for `Content-Length`, an integer. -/
inductive HVal : Type where
  | s (v : Str) : HVal
  | n (v : Nat) : HVal

/-- A header value as Python's string formatting writes it. -/
def hvalStr : HVal → Str
  | .s v => v
  | .n v => natToStr v

/-- The `Response` value class (source lines 53 to 71). -/
structure Response : Type where
  http_version : Str
  status_code : Nat
  status_message : Str
  headers : List (Str × HVal)
  body : Str

/-- The `STATUS_CODES` table (source lines 13 to 17). -/
def STATUS_CODES : List (Nat × Str) :=
  [(200, "OK".toList), (404, "Not Found".toList), (405, "Not Allowed".toList)]

/-- Indexing into `STATUS_CODES`, raising `KeyError` on an unknown
code, as `STATUS_CODES[status_code]` does. -/
def statusLookupE (code : Nat) : Except PyErr Str :=
  match STATUS_CODES.find? (fun kv => kv.1 == code) with
  | some kv => .ok kv.2
  | none => .error .keyError

/-- The `Response.__init__` constructor (source lines 56 to 62): the
passed status message is ignored and recomputed from `STATUS_CODES`,
which raises `KeyError` on an unknown code. -/
def Response.make (http_version : Str) (status_code : Nat) (_status_message : Str)
    (headers : List (Str × HVal)) (body : Str) : Except PyErr Response :=
  match statusLookupE status_code with
  | .error e => .error e
  | .ok m => .ok ⟨http_version, status_code, m, headers, body⟩

/-- The `json_content` decorator (source lines 21 to 28) applied to a
handler outcome: a `None` result becomes `(404, STATUS_CODES[404])` and
any value becomes `(200, json.dumps(value))`; an exception propagates. -/
def json_content (outcome : Except PyErr (Option Json)) : Except PyErr (Nat × Str) :=
  match outcome with
  | .error e => .error e
  | .ok none => .ok (404, "Not Found".toList)
  | .ok (some v) => .ok (200, dumpsVal v)

/-! ### The handlers -/

/-- Python `body[key]` for a string key: a dictionary lookup that
raises `KeyError` when the key is absent, and `TypeError` when the
value is not a dictionary. -/
def Json.strIndex : Json → Str → Except PyErr Json
  | .obj members, key =>
    match dictLookup members key with
    | some v => .ok v
    | none => .error .keyError
  | _, _ => .error .typeError

/-- Reads a JSON array of numbers as an integer list. -/
def asIntListAux : List Json → Option (List Int)
  | [] => some []
  | .num n :: xs => (asIntListAux xs).map (fun l => n :: l)
  | _ => none

/-- Reads a JSON value as an integer list, the shape `sorted` is given
in the modelled runs (sorting any other value is modelled as a
`TypeError`; the model restricts list elements to numbers). -/
def asIntList : Json → Option (List Int)
  | .arr xs => asIntListAux xs
  | _ => none

/-- Python `sorted` on a list of integers: ascending order.  Insertion
sort computes the same list as any correct comparison sort of
integers. -/
def pySorted (ns : List Int) : List Int := List.insertionSort (· ≤ ·) ns

/-- The body of `sort_numbers` before the decorator (source lines 177
to 184): a falsy body gives the empty list, otherwise the value under
the key `input` is sorted; a missing key raises `KeyError`. -/
def sort_numbers_fn (request : Request) : Except PyErr (Option Json) :=
  let bodyTruthy := match request.body with
    | none => false
    | some b => b.truthy
  if bodyTruthy then
    match request.body with
    | none => .error .typeError
    | some b =>
      match b.strIndex ("input".toList) with
      | .error e => .error e
      | .ok v =>
        match asIntList v with
        | some numbers => .ok (some (.arr ((pySorted numbers).map Json.num)))
        | none => .error .typeError
  else .ok (some (.arr []))

/-- The decorated `sort_numbers` handler. -/
def sort_numbers (request : Request) : Except PyErr (Nat × Str) :=
  json_content (sort_numbers_fn request)

/-- The body of `get_request_headers` before the decorator (source
lines 186 to 190). -/
def get_request_headers_fn (request : Request) : Except PyErr (Option Json) :=
  .ok (some (.obj (request.headers.map (fun kv => (kv.1, Json.str kv.2)))))

/-- The decorated `get_request_headers` handler. -/
def get_request_headers (request : Request) : Except PyErr (Nat × Str) :=
  json_content (get_request_headers_fn request)

/-- The external record source of the `movies` handler: the field names
of the header row and the data rows of the semicolon-delimited file,
already split into fields.  `csv.DictReader` presents each row as a
mapping from the field names to the row's cells. -/
structure CsvTable : Type where
  fields : List Str
  rows : List (List Str)

/-- A data row as the mapping `csv.DictReader` yields for it. -/
def rowDict (fields row : List Str) : List (Str × Str) := List.zip fields row

/-- A row converted to the JSON object `json.dumps` receives for it. -/
def rowJson (fields row : List Str) : Json :=
  .obj ((rowDict fields row).map (fun kv => (kv.1, Json.str kv.2)))

/-- The row loop of `search_movie_title` (source lines 199 to 202):
`row["Title"]` raises `KeyError` when the mapping has no such field;
the first row whose title equals the searched one is returned. -/
def movieScan (fields : List Str) (title : Str) : List (List Str) → Except PyErr (Option Json)
  | [] => .ok none
  | row :: rest =>
    match dictLookup (rowDict fields row) ("Title".toList) with
    | none => .error .keyError
    | some t => if t = title then .ok (some (rowJson fields row)) else movieScan fields title rest

/-- The body of `search_movie_title` before the decorator (source lines
192 to 202): the searched title is the last `/`-separated segment of
the resource. -/
def search_movie_title_fn (db : CsvTable) (request : Request) : Except PyErr (Option Json) :=
  movieScan db.fields ((pySplit ['/'] request.resource).getLastD []) db.rows

/-- The decorated `search_movie_title` handler. -/
def search_movie_title (db : CsvTable) (request : Request) : Except PyErr (Nat × Str) :=
  json_content (search_movie_title_fn db request)

/-! ### The dispatcher -/

/-- The handlers bound in the route table. -/
inductive HandlerName : Type where
  | getRequestHeaders : HandlerName
  | searchMovieTitle : HandlerName
  | sortNumbers : HandlerName
deriving DecidableEq

/-- The `self.collections` route table (source lines 83 to 93), built
once at construction and never mutated. -/
def collections : List (Str × List (Str × HandlerName)) :=
  [("headers".toList, [("GET".toList, .getRequestHeaders)]),
   ("movies".toList, [("GET".toList, .searchMovieTitle)]),
   ("sort".toList, [("POST".toList, .sortNumbers)])]

/-- Invokes a bound handler. -/
def runHandler (db : CsvTable) : HandlerName → Request → Except PyErr (Nat × Str)
  | .getRequestHeaders, request => get_request_headers request
  | .searchMovieTitle, request => search_movie_title db request
  | .sortNumbers, request => sort_numbers request

/-- The host and port of the server instance. -/
structure ServerCfg : Type where
  host : Str
  port : Nat

/-- The `_generate_response_headers` method (source lines 168 to 175).
The current wall-clock time is a parameter, `now`.  `Content-Length`
is the integer `len(content)`: the number of code points of the
content string. -/
def generate_response_headers (cfg : ServerCfg) (now : Str) (content : Str) :
    List (Str × HVal) :=
  [("Content-Type".toList, .s ("application/json".toList)),
   ("Host".toList, .s (cfg.host ++ ':' :: natToStr cfg.port)),
   ("Date".toList, .s now),
   ("Content-Length".toList, .n content.length)]

/-- The shared tail of `handle_request` (source lines 132 to 137): a
non-200 status replaces the content by the status message, the status
message is looked up, headers are generated and the response is built.
`handlerContent` is `none` on the two routing-failure paths, where the
Python local `content` is still unbound at line 132 (reading it on a
200 status there would raise `UnboundLocalError`; that path is
unreachable). -/
def respond (cfg : ServerCfg) (now http_version : Str) (status_code : Nat)
    (handlerContent : Option Str) : Except PyErr Response :=
  match (if status_code ≠ 200 then statusLookupE status_code
         else match handlerContent with
           | some c => .ok c
           | none => .error .unboundLocal) with
  | .error e => .error e
  | .ok content =>
    match statusLookupE status_code with
    | .error e => .error e
    | .ok status_message =>
      Response.make http_version status_code status_message
        (generate_response_headers cfg now content) content

/-- The `handle_request` dispatcher (source lines 116 to 137).  Line
119 takes `resource.split("/")[1]` before any exception handler is
installed, so a resource with fewer than two `/`-separated segments
raises an uncaught `IndexError`.  An unknown collection gives 404, a
known collection with an unbound method gives 405, and otherwise the
bound handler runs. -/
def handle_request (cfg : ServerCfg) (db : CsvTable) (now : Str) (request : Request) :
    Except PyErr Response :=
  match (pySplit ['/'] request.resource)[1]? with
  | none => .error .indexError
  | some requested_collection =>
    match dictLookup collections requested_collection with
    | none => respond cfg now request.http_version 404 none
    | some collection =>
      match dictLookup collection request.method with
      | none => respond cfg now request.http_version 405 none
      | some handler =>
        match runHandler db handler request with
        | .error e => .error e
        | .ok (status_code, content) =>
          respond cfg now request.http_version status_code (some content)

/-- The collection a request addresses, when its resource has a second
`/`-separated segment. -/
def collectionOf (request : Request) : Option Str :=
  (pySplit ['/'] request.resource)[1]?

/-- The handler the route table binds for a request's collection and
method, when both lookups succeed. -/
def selectedHandler (request : Request) : Option HandlerName :=
  match collectionOf request with
  | none => none
  | some c =>
    match dictLookup collections c with
    | none => none
    | some methods => dictLookup methods request.method

/-! ### Request decoding -/

/-- The header loop of `_get_headers` (source lines 154 to 161): each
raw header line must split on one colon-space separator into exactly a
pair, which is inserted into the dictionary; otherwise the unpacking
raises `ValueError`. -/
def getHeadersAux : List Str → List (Str × Str) → Except PyErr (List (Str × Str))
  | [], acc => .ok acc
  | h :: rest, acc =>
    match pySplit colonSpace h with
    | [key, value] => getHeadersAux rest (dictSet acc key value)
    | _ => .error .valueError

/-- The `_get_headers` static method. -/
def get_headers (raw_headers : List Str) : Except PyErr (List (Str × Str)) :=
  getHeadersAux raw_headers []

/-- The `_get_body` static method (source lines 163 to 166): an empty
body line means no body, a nonempty one is parsed as JSON, and a parse
failure is an exception. -/
def get_body (raw_body : Str) : Except PyErr (Option Json) :=
  if raw_body.isEmpty then .ok none
  else
    match loads raw_body with
    | some v => .ok (some v)
    | none => .error .jsonError

/-- The `process_request` decoder (source lines 108 to 114): the raw
text is split on CRLF, the first line must split on single spaces into
exactly three tokens, the slice `[1:-2]` is parsed as headers, and the
last line as the body. -/
def process_request (raw_request : Str) : Except PyErr Request :=
  let request_segments := pySplit CRLF raw_request
  match pySplit [' '] (request_segments.headD []) with
  | [method, resource, http_version] =>
    match get_headers (sliceOneToNegTwo request_segments) with
    | .error e => .error e
    | .ok headers =>
      match get_body (request_segments.getLastD []) with
      | .error e => .error e
      | .ok body => .ok ⟨method, resource, http_version, headers, body⟩
  | _ => .error .valueError

/-! ### Response encoding -/

/-- The `HTTP_RESPONSE_TPL` template (source line 18), with the brace
characters of the placeholders written as code-point escapes. -/
def HTTP_RESPONSE_TPL : Str :=
  "\x7b\x7d \x7b\x7d \x7b\x7d\r\n\x7b\x7d\r\n\r\n\x7b\x7d\r\n".toList

/-- Python `template.format(args...)` restricted to plain positional
placeholders, the only feature the template uses.  A placeholder with
the argument list exhausted, or a stray brace, is left verbatim; the
single call site supplies exactly as many arguments as there are
placeholders. -/
def pyFormat : Str → List Str → Str
  | [], _ => []
  | c :: rest, args =>
    if c = lbrace then
      match rest, args with
      | c2 :: rest2, a :: args2 =>
        if c2 = rbrace then a ++ pyFormat rest2 args2
        else c :: pyFormat (c2 :: rest2) (a :: args2)
      | rest2, args2 => c :: pyFormat rest2 args2
    else c :: pyFormat rest args

/-- The `send_response` serializer (source lines 139 to 152), without
the socket write: header lines are joined in mapping iteration order,
the template is filled, and the result is UTF-8 encoded. -/
def send_response (response : Response) : ByteArray :=
  let headers := pyJoin CRLF
    (response.headers.map (fun kv => kv.1 ++ ':' :: ' ' :: hvalStr kv.2))
  (String.mk (pyFormat HTTP_RESPONSE_TPL
    [response.http_version, natToStr response.status_code, response.status_message,
     headers, response.body])).toUTF8

/-! ### The wire framing of a request

The repository contains no request encoder (the client side), only the
decoder; the encoder below is the testing counterpart the round-trip
property quantifies over. -/

/-- Modelled from the spec: the wire framing of a request is the
request line, the CRLF-separated header lines, a blank line and the
body line, all joined by CRLF; the body line is empty for an absent
body and the serialized JSON value otherwise. -/
def encode_request (r : Request) : Str :=
  let request_line := r.method ++ ' ' :: r.resource ++ ' ' :: r.http_version
  let header_lines := r.headers.map (fun kv => kv.1 ++ ':' :: ' ' :: kv.2)
  let body_line := match r.body with
    | none => []
    | some v => dumpsVal v
  pyJoin CRLF (request_line :: (header_lines ++ [[], body_line]))

/-- Decides that a string contains no occurrence of the two-character
pattern `x` then `y`. -/
def noOcc2 (x y : Char) : Str → Bool
  | [] => true
  | [_] => true
  | a :: b :: rest => !(a == x && b == y) && noOcc2 x y (b :: rest)

/-- A well-formed request-line token: no space (the request line must
split back into exactly three tokens) and no CRLF (the framing is
line-positional). -/
def tokenOkB (s : Str) : Bool := !(s.any (fun c => c == ' ')) && noOcc2 '\r' '\n' s

/-- A well-formed header pair: name and value contain no colon-space
separator and no CRLF. -/
def headerPairOkB (kv : Str × Str) : Bool :=
  noOcc2 ':' ' ' kv.1 && noOcc2 ':' ' ' kv.2 &&
  noOcc2 '\r' '\n' kv.1 && noOcc2 '\r' '\n' kv.2

/-- A well-formed request value, in the sense of the round-trip
property: three well-formed tokens, well-formed header pairs with
pairwise distinct names, and a body that faithfully denotes Python
data (objects with distinct keys). -/
def requestWFb (r : Request) : Bool :=
  tokenOkB r.method && tokenOkB r.resource && tokenOkB r.http_version &&
  r.headers.all headerPairOkB && nodupKeysB r.headers &&
  (match r.body with
   | none => true
   | some v => Json.WFb v)

/-! ### Concrete fixtures for the closed instances -/

/-- The server configuration of the module entry point (source line
206). -/
def cfgEx : ServerCfg := ⟨"127.0.0.1".toList, 7777⟩

/-- A small concrete record source for the `movies` handler. -/
def dbEx : CsvTable :=
  ⟨["Title".toList, "Year".toList],
   [["Alpha".toList, "1999".toList], ["Beta".toList, "2000".toList]]⟩

/-- A concrete wall-clock string. -/
def nowEx : Str := "Sun Oct 12 12:00:00 2025".toList

/-- A raw request whose one header line is followed by the blank line
and an empty body line: four CRLF-separated lines in total. -/
def rawHeaderOnly : Str :=
  "GET /x HTTP/1.1\r\nA: b\r\n\r\n".toList

/-- A raw request with a malformed header line in the `[1:-2]` slice. -/
def rawBadHeader : Str :=
  "GET /x HTTP/1.1\r\nbad\r\n\r\n".toList

/-- A raw POST whose JSON body is a truthy object without the key
`input`. -/
def rawSortNoInput : Str :=
  ("POST /sort HTTP/1.1\r\nHost: x\r\n\r\n\x7b\x22x\x22: 1\x7d").toList

/-- The decoded form of `rawSortNoInput`. -/
def reqSortNoInput : Request :=
  ⟨"POST".toList, "/sort".toList, "HTTP/1.1".toList,
   [("Host".toList, "x".toList)], some (.obj [("x".toList, .num 1)])⟩

/-- A request whose resource has no slash at all, so that splitting on
`/` yields a single segment. -/
def reqEmptyResource : Request :=
  ⟨"GET".toList, [], "HTTP/1.1".toList, [], none⟩

/-- A request for an unknown collection. -/
def reqUnknown : Request :=
  ⟨"GET".toList, "/nope".toList, "HTTP/1.1".toList, [], none⟩

/-- A DELETE on the `sort` collection, whose method map only binds
POST. -/
def reqDeleteSort : Request :=
  ⟨"DELETE".toList, "/sort".toList, "HTTP/1.1".toList, [], none⟩

/-- A POST to `/sort` with a numeric input list. -/
def reqSortOk : Request :=
  ⟨"POST".toList, "/sort".toList, "HTTP/1.1".toList, [],
   some (.obj [("input".toList, .arr [.num 3, .num 1, .num 2])])⟩

/-- A GET to `/movies/Beta`. -/
def reqMovieBeta : Request :=
  ⟨"GET".toList, "/movies/Beta".toList, "HTTP/1.1".toList, [], none⟩

/-- A GET to `/headers` with one header. -/
def reqHeaders : Request :=
  ⟨"GET".toList, "/headers".toList, "HTTP/1.1".toList,
   [("Host".toList, "x".toList)], none⟩

/-- A well-formed request value exercising every round-trip component:
tokens, two headers, and a JSON object body. -/
def reqRoundTrip : Request :=
  ⟨"POST".toList, "/sort".toList, "HTTP/1.1".toList,
   [("Host".toList, "127.0.0.1:7777".toList), ("Accept".toList, "application/json".toList)],
   some (.obj [("input".toList, .arr [.num 3, .num (-1), .num 2])])⟩

/-- A request whose resource lacks the leading slash, so that splitting
on `/` yields a single segment. -/
def reqNoSlash : Request :=
  ⟨"GET".toList, "nope".toList, "HTTP/1.1".toList, [], none⟩

/-- The 404 response the dispatcher builds for `reqUnknown` under the
concrete configuration. -/
def respUnknownEx : Response :=
  ⟨"HTTP/1.1".toList, 404, "Not Found".toList,
   generate_response_headers cfgEx nowEx ("Not Found".toList), "Not Found".toList⟩

/-! ## Lemmas: splitting and joining -/

theorem startsWith_single (x c : Char) (cs : Str) :
    startsWith [x] (c :: cs) = (x == c) := by
  simp [startsWith]

theorem startsWith_pair_one (x y c : Char) :
    startsWith [x, y] [c] = false := by
  simp [startsWith]

theorem startsWith_pair (x y c d : Char) (ds : Str) :
    startsWith [x, y] (c :: d :: ds) = (x == c && y == d) := by
  simp [startsWith]

theorem pySplitAux_fuel (sep : Str) (hsep : sep ≠ []) :
    ∀ (f1 f2 : Nat) (s : Str), s.length ≤ f1 → s.length ≤ f2 →
      pySplitAux sep f1 s = pySplitAux sep f2 s := by
  intro f1
  induction f1 with
  | zero =>
    intro f2 s h1 _
    have : s = [] := List.eq_nil_of_length_eq_zero (Nat.le_zero.mp h1)
    subst this
    cases f2 <;> rfl
  | succ f ih =>
    intro f2 s h1 h2
    cases s with
    | nil => cases f2 <;> rfl
    | cons c cs =>
      cases f2 with
      | zero => exact absurd h2 (by simp)
      | succ f2 =>
        have hlen : sep.length ≥ 1 := by
          cases sep with
          | nil => exact absurd rfl hsep
          | cons a b => simp
        simp only [pySplitAux]
        have hdrop : ((c :: cs).drop sep.length).length ≤ cs.length := by
          simp only [List.length_drop, List.length_cons]
          omega
        have hcs1 : cs.length ≤ f := by simpa using h1
        have hcs2 : cs.length ≤ f2 := by simpa using h2
        rw [ih f2 ((c :: cs).drop sep.length) (le_trans hdrop hcs1) (le_trans hdrop hcs2),
            ih f2 cs hcs1 hcs2]

theorem pySplit_cons (sep : Str) (hsep : sep ≠ []) (c : Char) (cs : Str) :
    pySplit sep (c :: cs) =
      if startsWith sep (c :: cs) = true then
        [] :: pySplit sep ((c :: cs).drop sep.length)
      else
        match pySplit sep cs with
        | t :: ts => (c :: t) :: ts
        | [] => [[c]] := by
  have hlen : sep.length ≥ 1 := by
    cases sep with
    | nil => exact absurd rfl hsep
    | cons a b => simp
  have hdrop : ((c :: cs).drop sep.length).length ≤ cs.length := by
    simp only [List.length_drop, List.length_cons]
    omega
  show pySplitAux sep (cs.length + 1) (c :: cs) = _
  simp only [pySplitAux, hsep, ne_eq, not_false_iff, true_and]
  by_cases h : startsWith sep (c :: cs) = true
  · simp only [h, if_true]
    rw [pySplitAux_fuel sep hsep cs.length ((c :: cs).drop sep.length).length
        ((c :: cs).drop sep.length) hdrop le_rfl]
    rfl
  · simp only [h, if_false]
    rfl

theorem pySplit_nil (sep : Str) : pySplit sep [] = [[]] := rfl

theorem pySplit_single_sep_all (x : Char) : ∀ a : Str, x ∉ a → pySplit [x] a = [a] := by
  intro a
  induction a with
  | nil => intro _; rfl
  | cons c cs ih =>
    intro h
    have hc : x ≠ c := by
      intro e
      exact h (by simp [e])
    have hcs : x ∉ cs := fun m => h (by simp [m])
    rw [pySplit_cons [x] (by simp) c cs]
    have hs : startsWith [x] (c :: cs) = false := by
      rw [startsWith_single]
      exact beq_eq_false_iff_ne.mpr hc
    simp only [hs, Bool.false_eq_true, if_false, ih hcs]

theorem pySplit_single_sep_append (x : Char) :
    ∀ (a b : Str), x ∉ a → pySplit [x] (a ++ x :: b) = a :: pySplit [x] b := by
  intro a
  induction a with
  | nil =>
    intro b _
    rw [List.nil_append, pySplit_cons [x] (by simp) x b]
    rw [startsWith_single]
    simp
  | cons c cs ih =>
    intro b h
    have hc : x ≠ c := by
      intro e
      exact h (by simp [e])
    have hcs : x ∉ cs := fun m => h (by simp [m])
    rw [List.cons_append, pySplit_cons [x] (by simp) c (cs ++ x :: b)]
    have hs : startsWith [x] (c :: (cs ++ x :: b)) = false := by
      rw [startsWith_single]
      exact beq_eq_false_iff_ne.mpr hc
    simp only [hs, Bool.false_eq_true, if_false, ih b hcs]

theorem noOcc2_cons_iff (x y a b : Char) (l : Str) :
    noOcc2 x y (a :: b :: l) = (!(a == x && b == y) && noOcc2 x y (b :: l)) := rfl

theorem noOcc2_pair_false {x y a b : Char} {l : Str}
    (h : noOcc2 x y (a :: b :: l) = true) : ¬(a = x ∧ b = y) := by
  rw [noOcc2_cons_iff] at h
  intro ⟨e1, e2⟩
  subst e1; subst e2
  simp at h

theorem noOcc2_tail {x y a : Char} {l : Str} (h : noOcc2 x y (a :: l) = true) :
    noOcc2 x y l = true := by
  cases l with
  | nil => rfl
  | cons b bs =>
    rw [noOcc2_cons_iff] at h
    exact (Bool.and_eq_true_iff.mp h).2

theorem pySplit_pair_sep_all (x y : Char) :
    ∀ a : Str, noOcc2 x y a = true → pySplit [x, y] a = [a] := by
  intro a
  induction a with
  | nil => intro _; rfl
  | cons c cs ih =>
    intro h
    rw [pySplit_cons [x, y] (by simp) c cs]
    have hs : startsWith [x, y] (c :: cs) = false := by
      cases cs with
      | nil => exact startsWith_pair_one x y c
      | cons d ds =>
        rw [startsWith_pair]
        have hp := noOcc2_pair_false h
        by_cases hcx : c = x
        · have hdy : y ≠ d := fun e => hp ⟨hcx, e.symm⟩
          simp [beq_eq_false_iff_ne.mpr hdy]
        · simp [beq_eq_false_iff_ne.mpr (fun e => hcx e.symm)]
    simp only [hs, Bool.false_eq_true, if_false, ih (noOcc2_tail h)]

theorem pySplit_pair_sep_append (x y : Char) (hxy : x ≠ y) :
    ∀ (a b : Str), noOcc2 x y a = true →
      pySplit [x, y] (a ++ x :: y :: b) = a :: pySplit [x, y] b := by
  intro a
  induction a with
  | nil =>
    intro b _
    rw [List.nil_append, pySplit_cons [x, y] (by simp) x (y :: b)]
    rw [startsWith_pair]
    simp
  | cons c cs ih =>
    intro b h
    rw [List.cons_append, pySplit_cons [x, y] (by simp) c (cs ++ x :: y :: b)]
    have hs : startsWith [x, y] (c :: (cs ++ x :: y :: b)) = false := by
      cases cs with
      | nil =>
        rw [List.nil_append, startsWith_pair]
        by_cases hcx : c = x
        · have : y ≠ x := fun e => hxy e.symm
          simp [beq_eq_false_iff_ne.mpr this]
        · simp [beq_eq_false_iff_ne.mpr (fun e => hcx e.symm)]
      | cons d ds =>
        rw [List.cons_append, startsWith_pair]
        have hp := noOcc2_pair_false h
        by_cases hcx : c = x
        · have hdy : y ≠ d := fun e => hp ⟨hcx, e.symm⟩
          simp [beq_eq_false_iff_ne.mpr hdy]
        · simp [beq_eq_false_iff_ne.mpr (fun e => hcx e.symm)]
    simp only [hs, Bool.false_eq_true, if_false, ih b (noOcc2_tail h)]

theorem pyJoin_cons (sep : Str) (l : Str) (l2 : Str) (rest : List Str) :
    pyJoin sep (l :: l2 :: rest) = l ++ sep ++ pyJoin sep (l2 :: rest) := rfl

theorem pySplit_pyJoin_pair (x y : Char) (hxy : x ≠ y) :
    ∀ lines : List Str, lines ≠ [] → (∀ l ∈ lines, noOcc2 x y l = true) →
      pySplit [x, y] (pyJoin [x, y] lines) = lines := by
  intro lines
  induction lines with
  | nil => intro h _; exact absurd rfl h
  | cons l rest ih =>
    intro _ hall
    cases rest with
    | nil =>
      show pySplit [x, y] l = [l]
      exact pySplit_pair_sep_all x y l (hall l (by simp))
    | cons l2 rest2 =>
      rw [pyJoin_cons]
      have hshape : l ++ [x, y] ++ pyJoin [x, y] (l2 :: rest2)
           = l ++ x :: y :: pyJoin [x, y] (l2 :: rest2) := by
        simp
      rw [hshape, pySplit_pair_sep_append x y hxy l _ (hall l (by simp)),
          ih (by simp) (fun m hm => hall m (by simp [hm]))]

theorem noOcc2_of_all (x y : Char) :
    ∀ s : Str, (∀ c ∈ s, c ≠ x) → noOcc2 x y s = true := by
  intro s
  induction s with
  | nil => intro _; rfl
  | cons c cs ih =>
    intro h
    cases cs with
    | nil => rfl
    | cons d ds =>
      have hc : (c == x) = false := beq_eq_false_iff_ne.mpr (h c (by simp))
      have ht : noOcc2 x y (d :: ds) = true := ih (fun e he => h e (by simp [he]))
      rw [noOcc2_cons_iff, ht, hc]
      rfl

theorem noOcc2_cons_of (x y c : Char) (b : Str) (hc : c ≠ x)
    (hb : noOcc2 x y b = true) : noOcc2 x y (c :: b) = true := by
  cases b with
  | nil => rfl
  | cons d ds =>
    rw [noOcc2_cons_iff, hb, beq_eq_false_iff_ne.mpr hc]
    rfl

theorem noOcc2_append_cons (x y c : Char) :
    ∀ (a b : Str), noOcc2 x y a = true → noOcc2 x y b = true → c ≠ x → c ≠ y →
      noOcc2 x y (a ++ c :: b) = true := by
  intro a
  induction a with
  | nil =>
    intro b _ hb hc1 _
    exact noOcc2_cons_of x y c b hc1 hb
  | cons e a2 ih =>
    intro b ha hb hc1 hc2
    have htail : noOcc2 x y (a2 ++ c :: b) = true := ih b (noOcc2_tail ha) hb hc1 hc2
    cases a2 with
    | nil =>
      simp only [List.nil_append] at htail
      simp only [List.cons_append, List.nil_append, noOcc2_cons_iff, htail, Bool.and_true]
      have : (e == x && c == y) = false := by
        cases hex : e == x with
        | false => rfl
        | true =>
          have : (c == y) = false := beq_eq_false_iff_ne.mpr hc2
          rw [this]
          rfl
      rw [this]
      rfl
    | cons d a3 =>
      have hpair : ¬(e = x ∧ d = y) := noOcc2_pair_false ha
      simp only [List.cons_append] at htail ⊢
      rw [noOcc2_cons_iff, htail, Bool.and_true]
      have : (e == x && d == y) = false := by
        cases hex : e == x with
        | false => rfl
        | true =>
          have hd : (d == y) = false :=
            beq_eq_false_iff_ne.mpr (fun ed => hpair ⟨eq_of_beq hex, ed⟩)
          rw [hd]
          rfl
      rw [this]
      rfl

/-! ## Lemmas: decimal digits -/

theorem digitChar_spec :
    ∀ d, d < 10 → (digitChar d).toNat = 48 + d ∧ isDigitChar (digitChar d) = true := by
  decide

theorem natToStrAux_fuel :
    ∀ (f1 f2 n : Nat), n ≤ f1 → n ≤ f2 → natToStrAux f1 n = natToStrAux f2 n := by
  intro f1
  induction f1 with
  | zero =>
    intro f2 n h1 _
    have : n = 0 := Nat.le_zero.mp h1
    subst this
    cases f2 <;> rfl
  | succ f ih =>
    intro f2 n h1 h2
    cases n with
    | zero => cases f2 <;> rfl
    | succ m =>
      cases f2 with
      | zero => exact absurd h2 (by omega)
      | succ g =>
        simp only [natToStrAux]
        rw [ih g ((m + 1) / 10) (by omega) (by omega)]

theorem natDigits_unfold (n : Nat) (h : 0 < n) :
    natToStrAux n n = natToStrAux (n / 10) (n / 10) ++ [digitChar (n % 10)] := by
  cases n with
  | zero => omega
  | succ m =>
    show natToStrAux (m + 1) (m + 1) = _
    simp only [natToStrAux]
    rw [natToStrAux_fuel m ((m + 1) / 10) ((m + 1) / 10) (by omega) le_rfl]

theorem natDigits_digits : ∀ n : Nat, ∀ c ∈ natToStrAux n n, isDigitChar c = true := by
  intro n
  induction n using Nat.strongRecOn with
  | ind n ih =>
    intro c hc
    cases Nat.eq_zero_or_pos n with
    | inl h0 =>
      subst h0
      simp [natToStrAux] at hc
    | inr hpos =>
      rw [natDigits_unfold n hpos] at hc
      rcases List.mem_append.mp hc with h | h
      · exact ih (n / 10) (by omega) c h
      · rw [List.mem_singleton] at h
        subst h
        exact (digitChar_spec (n % 10) (by omega)).2

theorem natDigits_head : ∀ n : Nat, 0 < n →
    ∃ c t, natToStrAux n n = c :: t ∧ 49 ≤ c.toNat ∧ c.toNat ≤ 57 := by
  intro n
  induction n using Nat.strongRecOn with
  | ind n ih =>
    intro hpos
    rw [natDigits_unfold n hpos]
    by_cases h10 : n < 10
    · have hz : n / 10 = 0 := by omega
      rw [hz]
      refine ⟨digitChar (n % 10), [], by rfl, ?_, ?_⟩
      · rw [(digitChar_spec (n % 10) (by omega)).1]
        omega
      · rw [(digitChar_spec (n % 10) (by omega)).1]
        omega
    · obtain ⟨c, t, he, h1, h2⟩ := ih (n / 10) (by omega) (by omega)
      rw [he]
      exact ⟨c, t ++ [digitChar (n % 10)], by simp, h1, h2⟩

theorem parseDigitsAcc_run :
    ∀ (ds : Str), (∀ c ∈ ds, isDigitChar c = true) →
      ∀ (acc : Nat) (rest : Str), (∀ c ∈ rest.take 1, isDigitChar c = false) →
        parseDigitsAcc acc (ds ++ rest) =
          (ds.foldl (fun a c => a * 10 + (c.toNat - 48)) acc, rest) := by
  intro ds
  induction ds with
  | nil =>
    intro _ acc rest hrest
    cases rest with
    | nil => rfl
    | cons c cs =>
      have : isDigitChar c = false := hrest c (by simp)
      simp [parseDigitsAcc, this]
  | cons d ds ih =>
    intro hds acc rest hrest
    have hd : isDigitChar d = true := hds d (by simp)
    simp only [List.cons_append, parseDigitsAcc, hd, if_true, List.foldl_cons]
    exact ih (fun c hc => hds c (by simp [hc])) _ rest hrest

theorem natDigits_foldl : ∀ n : Nat, ∀ acc : Nat,
    (natToStrAux n n).foldl (fun a c => a * 10 + (c.toNat - 48)) acc
      = acc * 10 ^ (natToStrAux n n).length + n := by
  intro n
  induction n using Nat.strongRecOn with
  | ind n ih =>
    intro acc
    cases Nat.eq_zero_or_pos n with
    | inl h0 =>
      subst h0
      simp [natToStrAux]
    | inr hpos =>
      rw [natDigits_unfold n hpos, List.foldl_append, ih (n / 10) (by omega) acc]
      simp only [List.foldl_cons, List.foldl_nil, List.length_append, List.length_cons,
        List.length_nil, Nat.zero_add]
      rw [(digitChar_spec (n % 10) (by omega)).1]
      have he : 48 + n % 10 - 48 = n % 10 := by omega
      rw [he, pow_succ]
      have hdm : n / 10 * 10 + n % 10 = n := by omega
      calc (acc * 10 ^ (natToStrAux (n / 10) (n / 10)).length + n / 10) * 10 + n % 10
          = acc * (10 ^ (natToStrAux (n / 10) (n / 10)).length * 10)
            + (n / 10 * 10 + n % 10) := by ring
        _ = acc * (10 ^ (natToStrAux (n / 10) (n / 10)).length * 10) + n := by rw [hdm]

theorem restStop_head {c : Char} {t : Str} (hr : restStopB (c :: t) = true) :
    c = ',' ∨ c = ']' ∨ c = rbrace ∨ c = ' ' ∨ c = '\t' ∨ c = '\n' ∨ c = '\r' := by
  simp only [restStopB, isWsChar, Bool.or_eq_true, beq_iff_eq] at hr
  tauto

theorem restStop_not_digit {rest : Str} (hr : restStopB rest = true) :
    ∀ c ∈ rest.take 1, isDigitChar c = false := by
  cases rest with
  | nil => simp
  | cons c t =>
    intro e he
    simp only [List.take_succ_cons, List.take_zero, List.mem_singleton] at he
    subst he
    rcases restStop_head hr with h | h | h | h | h | h | h <;> subst h <;> decide

theorem restStop_not_float {rest : Str} (hr : restStopB rest = true) :
    floatFollows rest = false := by
  cases rest with
  | nil => rfl
  | cons c t =>
    rcases restStop_head hr with h | h | h | h | h | h | h <;> subst h <;> rfl

theorem parseUNum_natToStr (n : Nat) (rest : Str) (hr : restStopB rest = true) :
    parseUNum (natToStr n ++ rest) = some (n, rest) := by
  by_cases h0 : n = 0
  · subst h0
    show parseUNum ('0' :: rest) = some (0, rest)
    simp [parseUNum, restStop_not_float hr]
  · have hpos : 0 < n := Nat.pos_of_ne_zero h0
    obtain ⟨c, t, he, h1, h2⟩ := natDigits_head n hpos
    have hne : natToStr n = natToStrAux n n := by simp [natToStr, h0]
    rw [hne, he, List.cons_append]
    have hcd : isDigitChar c = true := by
      simp only [isDigitChar, Bool.and_eq_true, decide_eq_true_eq]
      omega
    have hc0 : ¬(c = '0') := by
      intro e
      subst e
      exact absurd h1 (by decide)
    simp only [parseUNum, hc0, if_false, hcd, if_true]
    have hall : ∀ e ∈ t, isDigitChar e = true := by
      intro e hmem
      exact natDigits_digits n e (by rw [he]; simp [hmem])
    rw [parseDigitsAcc_run t hall (c.toNat - 48) rest (restStop_not_digit hr)]
    simp only [restStop_not_float hr, Bool.false_eq_true, if_false]
    have hfold : t.foldl (fun a e => a * 10 + (e.toNat - 48)) (c.toNat - 48) = n := by
      have := natDigits_foldl n 0
      rw [he] at this
      simp only [List.foldl_cons, Nat.zero_mul, Nat.zero_add] at this
      exact this
    rw [hfold]

theorem parseNum_intToStr (i : Int) (rest : Str) (hr : restStopB rest = true) :
    parseNum (intToStr i ++ rest) = some (i, rest) := by
  cases i with
  | ofNat n =>
    show parseNum (natToStr n ++ rest) = _
    have hne : ∃ c t, natToStr n = c :: t ∧ isDigitChar c = true := by
      by_cases h0 : n = 0
      · subst h0
        exact ⟨'0', [], rfl, by decide⟩
      · obtain ⟨c, t, he, h1, h2⟩ := natDigits_head n (Nat.pos_of_ne_zero h0)
        refine ⟨c, t, by simp [natToStr, h0, he],
          by simp only [isDigitChar, Bool.and_eq_true, decide_eq_true_eq]; omega⟩
    obtain ⟨c, t, he, hcd⟩ := hne
    rw [he, List.cons_append]
    have hcm : ¬(c = '-') := by
      intro e
      subst e
      simp [isDigitChar] at hcd
    simp only [parseNum, hcm, if_false]
    rw [← List.cons_append, ← he, parseUNum_natToStr n rest hr]
    rfl
  | negSucc m =>
    show parseNum ('-' :: (natToStr (m + 1) ++ rest)) = _
    simp only [parseNum, if_true]
    rw [parseUNum_natToStr (m + 1) rest hr]
    rfl

/-! ## Lemmas: string escapes -/

theorem char_valid (c : Char) : c.toNat < 55296 ∨ (57344 ≤ c.toNat ∧ c.toNat < 1114112) := by
  have h := c.valid
  rcases h with h | ⟨h1, h2⟩
  · left
    exact h
  · right
    exact ⟨h1, h2⟩

theorem hexDigit_parse : ∀ d, d < 16 → parseHex (hexDigit d) = some d := by
  decide

theorem hexQuad_uEsc (n : Nat) (h : n < 65536) :
    hexQuad (hexDigit (n / 4096 % 16)) (hexDigit (n / 256 % 16))
      (hexDigit (n / 16 % 16)) (hexDigit (n % 16)) = some n := by
  have e1 := hexDigit_parse (n / 4096 % 16) (by omega)
  have e2 := hexDigit_parse (n / 256 % 16) (by omega)
  have e3 := hexDigit_parse (n / 16 % 16) (by omega)
  have e4 := hexDigit_parse (n % 16) (by omega)
  have hv : (n / 4096 % 16 * 16 + n / 256 % 16) * 16 + n / 16 % 16 = n / 16 := by omega
  simp [hexQuad, e1, e2, e3, e4, hv]
  omega

theorem parseStrBodyF_quote (fuel : Nat) (rest : Str) :
    parseStrBodyF (fuel + 1) ('"' :: rest) = some ([], rest) := rfl

theorem parseStrBodyF_backslash (fuel : Nat) (rest : Str) :
    parseStrBodyF (fuel + 1) ('\\' :: rest) =
      match parseEscape rest with
      | none => none
      | some (ch, r) => (parseStrBodyF fuel r).map (fun p => (ch :: p.1, p.2)) := rfl

theorem parseStrBodyF_plain (fuel : Nat) (c : Char) (rest : Str) (h1 : ¬(c = '"'))
    (h2 : ¬(c = '\\')) (h3 : ¬(c.toNat < 32)) :
    parseStrBodyF (fuel + 1) (c :: rest)
      = (parseStrBodyF fuel rest).map (fun p => (c :: p.1, p.2)) := by
  simp only [parseStrBodyF]
  rw [if_neg h1, if_neg h2, if_neg h3]

theorem parseUHex_uEsc (n : Nat) (h : n < 65536) (r : Str) :
    parseUHex (hexDigit (n / 4096 % 16) :: hexDigit (n / 256 % 16)
      :: hexDigit (n / 16 % 16) :: hexDigit (n % 16) :: r) = some (n, r) := by
  simp only [parseUHex, hexQuad_uEsc n h]

theorem parseEscape_uEsc (n : Nat) (hn : n < 65536) (hs1 : ¬(55296 ≤ n ∧ n < 56320))
    (hs2 : ¬(56320 ≤ n ∧ n < 57344)) (r : Str) :
    parseEscape ('u' :: hexDigit (n / 4096 % 16) :: hexDigit (n / 256 % 16)
      :: hexDigit (n / 16 % 16) :: hexDigit (n % 16) :: r) = some (Char.ofNat n, r) := by
  simp only [parseEscape, if_true, parseUHex_uEsc n hn r, hs1, hs2, if_false]

theorem parseLowEsc_uEsc (m : Nat) (h : m < 65536) (hs : 56320 ≤ m ∧ m < 57344) (r : Str) :
    parseLowEsc ('\\' :: 'u' :: hexDigit (m / 4096 % 16) :: hexDigit (m / 256 % 16)
      :: hexDigit (m / 16 % 16) :: hexDigit (m % 16) :: r) = some (m, r) := by
  simp only [parseLowEsc, parseUHex_uEsc m h, hs, and_self, if_true]

theorem parseEscape_uEsc_pair (n m : Nat) (hn : n < 65536) (hm : m < 65536)
    (hs1 : 55296 ≤ n ∧ n < 56320) (hs2 : 56320 ≤ m ∧ m < 57344) (r : Str) :
    parseEscape ('u' :: hexDigit (n / 4096 % 16) :: hexDigit (n / 256 % 16)
        :: hexDigit (n / 16 % 16) :: hexDigit (n % 16)
        :: ('\\' :: 'u' :: hexDigit (m / 4096 % 16) :: hexDigit (m / 256 % 16)
            :: hexDigit (m / 16 % 16) :: hexDigit (m % 16) :: r))
      = some (Char.ofNat (65536 + (n - 55296) * 1024 + (m - 56320)), r) := by
  simp only [parseEscape, if_true, parseUHex_uEsc n hn, parseLowEsc_uEsc m hm hs2 r,
    hs1, and_self, if_pos]

theorem parseEscape_short (e c : Char) (r : Str) (he : ¬(e = 'u'))
    (hu : unescShort e = some c) : parseEscape (e :: r) = some (c, r) := by
  simp only [parseEscape, he, if_false, hu]

theorem parseStrBodyF_esc_step (fuel : Nat) (rest r : Str) (ch : Char)
    (hpe : parseEscape rest = some (ch, r)) :
    parseStrBodyF (fuel + 1) ('\\' :: rest)
      = (parseStrBodyF fuel r).map (fun p => (ch :: p.1, p.2)) := by
  rw [parseStrBodyF_backslash, hpe]

theorem parseStrBodyF_escChar (c : Char) (t : Str) (fuel : Nat) :
    parseStrBodyF (fuel + 1) (escChar c ++ t)
      = (parseStrBodyF fuel t).map (fun p => (c :: p.1, p.2)) := by
  by_cases h1 : c = '"'
  · subst h1
    rw [show escChar '"' ++ t = '\\' :: '"' :: t from rfl,
        parseStrBodyF_esc_step fuel _ t '"' (parseEscape_short '"' '"' t (by decide) rfl)]
  · by_cases h2 : c = '\\'
    · subst h2
      rw [show escChar '\\' ++ t = '\\' :: '\\' :: t from rfl,
          parseStrBodyF_esc_step fuel _ t '\\' (parseEscape_short '\\' '\\' t (by decide) rfl)]
    · by_cases h3 : c.toNat = 10
      · have hc : c = '\n' := by
          have h := Char.ofNat_toNat c
          rw [h3] at h
          exact h.symm
        subst hc
        rw [show escChar '\n' ++ t = '\\' :: 'n' :: t from rfl,
            parseStrBodyF_esc_step fuel _ t '\n' (parseEscape_short 'n' '\n' t (by decide) rfl)]
      · by_cases h4 : c.toNat = 13
        · have hc : c = '\r' := by
            have h := Char.ofNat_toNat c
            rw [h4] at h
            exact h.symm
          subst hc
          rw [show escChar '\r' ++ t = '\\' :: 'r' :: t from rfl,
              parseStrBodyF_esc_step fuel _ t '\r' (parseEscape_short 'r' '\r' t (by decide) rfl)]
        · by_cases h5 : c.toNat = 9
          · have hc : c = '\t' := by
              have h := Char.ofNat_toNat c
              rw [h5] at h
              exact h.symm
            subst hc
            rw [show escChar '\t' ++ t = '\\' :: 't' :: t from rfl,
                parseStrBodyF_esc_step fuel _ t '\t' (parseEscape_short 't' '\t' t (by decide) rfl)]
          · by_cases h6 : c.toNat = 8
            · have hesc : escChar c = ['\\', 'b'] := by
                simp [escChar, h1, h2, h3, h4, h5, h6]
              have hc : Char.ofNat 8 = c := by
                have h := Char.ofNat_toNat c
                rw [h6] at h
                exact h
              rw [hesc, List.cons_append, List.cons_append, List.nil_append,
                  parseStrBodyF_esc_step fuel _ t (Char.ofNat 8)
                    (parseEscape_short 'b' (Char.ofNat 8) t (by decide) rfl), hc]
            · by_cases h7 : c.toNat = 12
              · have hesc : escChar c = ['\\', 'f'] := by
                  simp [escChar, h1, h2, h3, h4, h5, h6, h7]
                have hc : Char.ofNat 12 = c := by
                  have h := Char.ofNat_toNat c
                  rw [h7] at h
                  exact h
                rw [hesc, List.cons_append, List.cons_append, List.nil_append,
                    parseStrBodyF_esc_step fuel _ t (Char.ofNat 12)
                      (parseEscape_short 'f' (Char.ofNat 12) t (by decide) rfl), hc]
              · by_cases h8 : 32 ≤ c.toNat ∧ c.toNat ≤ 126
                · have hesc : escChar c = [c] := by
                    simp [escChar, h1, h2, h3, h4, h5, h6, h7, h8]
                  rw [hesc]
                  exact parseStrBodyF_plain fuel c t h1 h2 (by omega)
                · by_cases h9 : c.toNat < 65536
                  · have hesc : escChar c = uEsc c.toNat := by
                      simp [escChar, h1, h2, h3, h4, h5, h6, h7, h8, h9]
                    rw [hesc]
                    have hg1 : ¬(55296 ≤ c.toNat ∧ c.toNat < 56320) := by
                      rcases char_valid c with h | ⟨ha, hb⟩ <;> omega
                    have hg2 : ¬(56320 ≤ c.toNat ∧ c.toNat < 57344) := by
                      rcases char_valid c with h | ⟨ha, hb⟩ <;> omega
                    simp only [uEsc, List.cons_append, List.nil_append]
                    rw [parseStrBodyF_esc_step fuel _ t (Char.ofNat c.toNat)
                          (parseEscape_uEsc c.toNat h9 hg1 hg2 t), Char.ofNat_toNat]
                  · have hval : c.toNat < 1114112 := by
                      rcases char_valid c with h | ⟨ha, hb⟩ <;> omega
                    have hesc : escChar c
                        = uEsc (55296 + (c.toNat - 65536) / 1024)
                          ++ uEsc (56320 + (c.toNat - 65536) % 1024) := by
                      simp [escChar, h1, h2, h3, h4, h5, h6, h7, h8, h9]
                    rw [hesc]
                    have hmod : (c.toNat - 65536) % 1024 < 1024 :=
                      Nat.mod_lt _ (by omega)
                    have hdiv : (c.toNat - 65536) / 1024 < 1024 := by omega
                    have hhi : 55296 + (c.toNat - 65536) / 1024 < 65536 := by omega
                    have hlo : 56320 + (c.toNat - 65536) % 1024 < 65536 := by omega
                    have hg1 : 55296 ≤ 55296 + (c.toNat - 65536) / 1024
                        ∧ 55296 + (c.toNat - 65536) / 1024 < 56320 := by omega
                    have hg2 : 56320 ≤ 56320 + (c.toNat - 65536) % 1024
                        ∧ 56320 + (c.toNat - 65536) % 1024 < 57344 := by omega
                    have hcomb : 65536 + (55296 + (c.toNat - 65536) / 1024 - 55296) * 1024
                        + (56320 + (c.toNat - 65536) % 1024 - 56320) = c.toNat := by
                      have := Nat.div_add_mod (c.toNat - 65536) 1024
                      omega
                    simp only [uEsc, List.cons_append, List.nil_append, List.append_assoc]
                    rw [parseStrBodyF_esc_step fuel _ t _
                          (parseEscape_uEsc_pair _ _ hhi hlo hg1 hg2 t), hcomb,
                        Char.ofNat_toNat]

theorem escBody_cons (c : Char) (cs : Str) : escBody (c :: cs) = escChar c ++ escBody cs := by
  simp [escBody]

theorem escChar_length (c : Char) : 1 ≤ (escChar c).length := by
  unfold escChar
  repeat' split
  all_goals simp [uEsc]

theorem escBody_length (s : Str) : s.length ≤ (escBody s).length := by
  induction s with
  | nil => simp [escBody]
  | cons c cs ih =>
    rw [escBody_cons]
    have := escChar_length c
    simp only [List.length_append, List.length_cons]
    omega

theorem parseStrBodyF_escBody : ∀ (s : Str) (fuel : Nat) (rest : Str),
    parseStrBodyF (s.length + fuel + 1) (escBody s ++ '"' :: rest) = some (s, rest) := by
  intro s
  induction s with
  | nil =>
    intro fuel rest
    exact parseStrBodyF_quote fuel rest
  | cons c cs ih =>
    intro fuel rest
    have hshape : (c :: cs).length + fuel + 1 = (cs.length + fuel + 1) + 1 := by
      simp only [List.length_cons]
      omega
    rw [hshape, escBody_cons, List.append_assoc, parseStrBodyF_escChar c _ _]
    rw [ih fuel rest]
    rfl

theorem parseStrBody_escBody (s rest : Str) :
    parseStrBody (escBody s ++ '"' :: rest) = some (s, rest) := by
  show parseStrBodyF ((escBody s ++ '"' :: rest).length + 1) (escBody s ++ '"' :: rest) = _
  have hlen := escBody_length s
  have harith : (escBody s ++ '"' :: rest).length + 1
      = s.length + ((escBody s).length - s.length + rest.length + 1) + 1 := by
    simp only [List.length_append, List.length_cons]
    omega
  rw [harith, parseStrBodyF_escBody]

/-! ## Lemmas: heads of serialized values -/

theorem skipWs_not_ws {c : Char} (h : isWsChar c = false) (t : Str) :
    skipWs (c :: t) = c :: t := by
  simp [skipWs, h]

theorem skipWs_space (t : Str) : skipWs (' ' :: t) = skipWs t := by
  simp [skipWs, isWsChar]

theorem not_ws_of_toNat {c : Char} (h1 : 34 ≤ c.toNat) : isWsChar c = false := by
  have hs : ¬(c = ' ') := fun e => by subst e; exact absurd h1 (by decide)
  have ht : ¬(c = '\t') := fun e => by subst e; exact absurd h1 (by decide)
  have hn : ¬(c = '\n') := fun e => by subst e; exact absurd h1 (by decide)
  have hr : ¬(c = '\r') := fun e => by subst e; exact absurd h1 (by decide)
  simp [isWsChar, hs, ht, hn, hr]

theorem intToStr_head (i : Int) :
    ∃ c t, intToStr i = c :: t ∧ (c.toNat = 45 ∨ (48 ≤ c.toNat ∧ c.toNat ≤ 57)) := by
  cases i with
  | ofNat n =>
    by_cases h0 : n = 0
    · subst h0
      exact ⟨'0', [], rfl, by decide⟩
    · obtain ⟨c, t, he, h1, h2⟩ := natDigits_head n (Nat.pos_of_ne_zero h0)
      refine ⟨c, t, ?_, Or.inr ⟨by omega, h2⟩⟩
      show natToStr n = c :: t
      simp [natToStr, h0, he]
  | negSucc m =>
    exact ⟨'-', natToStr (m + 1), rfl, Or.inl (by decide)⟩

theorem dumpsVal_head (j : Json) :
    ∃ c t, dumpsVal j = c :: t ∧ isWsChar c = false ∧ ¬(c = ']') := by
  have hne : ∀ c : Char, (c.toNat = 45 ∨ (48 ≤ c.toNat ∧ c.toNat ≤ 57)) → ¬(c = ']') :=
    fun c h e => by subst e; exact absurd h (by decide)
  cases j with
  | null => exact ⟨'n', _, rfl, by decide, by decide⟩
  | bool b =>
    cases b with
    | true => exact ⟨'t', _, rfl, by decide, by decide⟩
    | false => exact ⟨'f', _, rfl, by decide, by decide⟩
  | num i =>
    obtain ⟨c, t, he, hc⟩ := intToStr_head i
    refine ⟨c, t, he, not_ws_of_toNat (by omega), hne c hc⟩
  | str s => exact ⟨'"', _, rfl, by decide, by decide⟩
  | arr elems =>
    cases elems with
    | nil => exact ⟨'[', _, rfl, by decide, by decide⟩
    | cons x xs => exact ⟨'[', _, rfl, by decide, by decide⟩
  | obj members =>
    cases members with
    | nil => exact ⟨lbrace, _, rfl, by decide, by decide⟩
    | cons kv kvs =>
      obtain ⟨k, v⟩ := kv
      exact ⟨lbrace, _, rfl, by decide, by decide⟩

/-! ## Lemmas: stepping the value parser -/

theorem parseVal_null (fuel : Nat) (r : Str) :
    parseVal (fuel + 1) ('n' :: 'u' :: 'l' :: 'l' :: r) = some (.null, r) := by
  simp [parseVal]

theorem parseVal_true (fuel : Nat) (r : Str) :
    parseVal (fuel + 1) ('t' :: 'r' :: 'u' :: 'e' :: r) = some (.bool true, r) := by
  simp [parseVal]

theorem parseVal_false (fuel : Nat) (r : Str) :
    parseVal (fuel + 1) ('f' :: 'a' :: 'l' :: 's' :: 'e' :: r) = some (.bool false, r) := by
  simp [parseVal]

theorem parseVal_quote (fuel : Nat) (r : Str) :
    parseVal (fuel + 1) ('"' :: r) = (parseStrBody r).map (fun p => (Json.str p.1, p.2)) := by
  simp [parseVal]

theorem parseVal_num_head (fuel : Nat) (c : Char) (r : Str)
    (h : c.toNat = 45 ∨ (48 ≤ c.toNat ∧ c.toNat ≤ 57)) :
    parseVal (fuel + 1) (c :: r) =
      match parseNum (c :: r) with
      | some (n, r2) => some (.num n, r2)
      | none => none := by
  have h1 : ¬(c = 'n') := fun e => absurd (e ▸ h) (by decide)
  have h2 : ¬(c = 't') := fun e => absurd (e ▸ h) (by decide)
  have h3 : ¬(c = 'f') := fun e => absurd (e ▸ h) (by decide)
  have h4 : ¬(c = '"') := fun e => absurd (e ▸ h) (by decide)
  have h5 : ¬(c = '[') := fun e => absurd (e ▸ h) (by decide)
  have h6 : ¬(c = lbrace) := fun e => absurd (e ▸ h) (by decide)
  simp [parseVal, h1, h2, h3, h4, h5, h6]

theorem parseVal_arr_head (fuel : Nat) (r : Str) :
    parseVal (fuel + 1) ('[' :: r) =
      match skipWs r with
      | [] => none
      | d :: r2 =>
        if d = ']' then some (.arr [], r2)
        else
          match parseElems fuel (d :: r2) with
          | some (elems, r3) => some (.arr elems, r3)
          | none => none := by
  simp [parseVal]

theorem parseVal_obj_head (fuel : Nat) (r : Str) :
    parseVal (fuel + 1) (lbrace :: r) =
      match skipWs r with
      | [] => none
      | d :: r2 =>
        if d = rbrace then some (.obj [], r2)
        else
          match parseMembers fuel (d :: r2) with
          | some (pairs, r3) => some (.obj (buildDict pairs), r3)
          | none => none := by
  have h1 : ¬(lbrace = 'n') := by decide
  have h2 : ¬(lbrace = 't') := by decide
  have h3 : ¬(lbrace = 'f') := by decide
  have h4 : ¬(lbrace = '"') := by decide
  have h5 : ¬(lbrace = '[') := by decide
  simp [parseVal, h1, h2, h3, h4, h5]

theorem restStopB_arrTail (xs : List Json) (rest : Str) :
    restStopB (dumpsArrTail xs ++ ']' :: rest) = true := by
  cases xs with
  | nil => rfl
  | cons y ys => rfl

theorem restStopB_objTail (kvs : List (Str × Json)) (rest : Str) :
    restStopB (dumpsObjTail kvs ++ rbrace :: rest) = true := by
  cases kvs with
  | nil => rfl
  | cons kv kvs2 =>
    obtain ⟨k, v⟩ := kv
    rfl

/-! ## Lemmas: dictionaries -/

theorem dictSet_append {β : Type} :
    ∀ (acc : List (Str × β)) (k : Str) (v : β), (∀ kv ∈ acc, ¬(kv.1 = k)) →
      dictSet acc k v = acc ++ [(k, v)] := by
  intro acc
  induction acc with
  | nil => intro k v _; rfl
  | cons kv0 rest ih =>
    intro k v h
    have h0 : ¬(kv0.1 = k) := h kv0 (by simp)
    obtain ⟨k0, v0⟩ := kv0
    simp only [dictSet, h0, if_false]
    rw [ih k v (fun kv hkv => h kv (by simp [hkv]))]
    rfl

theorem nodupKeysB_head {β : Type} {kv : Str × β} {rest : List (Str × β)}
    (h : nodupKeysB (kv :: rest) = true) :
    (∀ kv2 ∈ rest, ¬(kv2.1 = kv.1)) ∧ nodupKeysB rest = true := by
  simp only [nodupKeysB, Bool.and_eq_true_iff, Bool.not_eq_true', List.any_eq_false,
    beq_iff_eq] at h
  exact ⟨fun kv2 hm => h.1 kv2 hm, h.2⟩

theorem buildDict_go {β : Type} :
    ∀ (kvs acc : List (Str × β)), nodupKeysB kvs = true →
      (∀ kv ∈ acc, ∀ kv2 ∈ kvs, ¬(kv.1 = kv2.1)) →
      List.foldl (fun d kv => dictSet d kv.1 kv.2) acc kvs = acc ++ kvs := by
  intro kvs
  induction kvs with
  | nil => intro acc _ _; simp
  | cons kv rest ih =>
    intro acc hnd hdisj
    obtain ⟨hset, hrest⟩ := nodupKeysB_head hnd
    simp only [List.foldl_cons]
    rw [dictSet_append acc kv.1 kv.2 (fun kv2 hm => hdisj kv2 hm kv (by simp))]
    have hdisj2 : ∀ kv2 ∈ acc ++ [kv], ∀ kv3 ∈ rest, ¬(kv2.1 = kv3.1) := by
      intro kv2 hm kv3 hm3
      rcases List.mem_append.mp hm with h | h
      · exact hdisj kv2 h kv3 (by simp [hm3])
      · rw [List.mem_singleton] at h
        subst h
        intro e
        exact hset kv3 hm3 e.symm
    rw [ih (acc ++ [kv]) hrest hdisj2]
    simp

theorem buildDict_nodup {β : Type} (kvs : List (Str × β)) (h : nodupKeysB kvs = true) :
    buildDict kvs = kvs := by
  have hfold := buildDict_go kvs [] h (fun kv hm => absurd hm (List.not_mem_nil kv))
  simpa [buildDict] using hfold

/-! ## The serializer and parser round-trip -/

theorem wfListB_cons {x : Json} {xs : List Json} (h : Json.wfListB (x :: xs) = true) :
    Json.WFb x = true ∧ Json.wfListB xs = true := by
  have he : Json.wfListB (x :: xs) = (Json.WFb x && Json.wfListB xs) := by
    simp [Json.wfListB]
  rw [he] at h
  exact Bool.and_eq_true_iff.mp h

theorem wfMembersB_cons {kv : Str × Json} {kvs : List (Str × Json)}
    (h : Json.wfMembersB (kv :: kvs) = true) :
    Json.WFb kv.2 = true ∧ Json.wfMembersB kvs = true := by
  have he : Json.wfMembersB (kv :: kvs) = (Json.WFb kv.2 && Json.wfMembersB kvs) := by
    simp [Json.wfMembersB]
  rw [he] at h
  exact Bool.and_eq_true_iff.mp h

theorem dumpsVal_arr_cons (x : Json) (xs : List Json) :
    dumpsVal (.arr (x :: xs)) = '[' :: (dumpsVal x ++ dumpsArrTail xs) ++ [']'] := by
  simp [dumpsVal]

theorem dumpsVal_obj_cons (k : Str) (v : Json) (kvs : List (Str × Json)) :
    dumpsVal (.obj ((k, v) :: kvs))
      = lbrace :: (('"' :: escBody k ++ ['"']) ++ ':' :: ' ' :: dumpsVal v ++ dumpsObjTail kvs)
          ++ [rbrace] := by
  simp [dumpsVal]

theorem dumpsArrTail_cons (y : Json) (ys : List Json) :
    dumpsArrTail (y :: ys) = ',' :: ' ' :: dumpsVal y ++ dumpsArrTail ys := by
  simp [dumpsArrTail]

theorem dumpsObjTail_cons (k : Str) (v : Json) (kvs : List (Str × Json)) :
    dumpsObjTail ((k, v) :: kvs)
      = ',' :: ' ' :: (('"' :: escBody k ++ ['"']) ++ ':' :: ' ' :: dumpsVal v ++ dumpsObjTail kvs) := by
  simp [dumpsObjTail]

mutual
theorem parseVal_dumps : ∀ (j : Json) (fuel : Nat) (rest : Str),
    Json.WFb j = true → (dumpsVal j).length < fuel → restStopB rest = true →
    parseVal fuel (dumpsVal j ++ rest) = some (j, rest)
  | .null, fuel, rest, _, hf, _ => by
    cases fuel with
    | zero => exact absurd hf (by simp)
    | succ f =>
      show parseVal (f + 1) (['n', 'u', 'l', 'l'] ++ rest) = _
      simp only [List.cons_append, List.nil_append]
      exact parseVal_null f rest
  | .bool true, fuel, rest, _, hf, _ => by
    cases fuel with
    | zero => exact absurd hf (by simp)
    | succ f =>
      show parseVal (f + 1) (['t', 'r', 'u', 'e'] ++ rest) = _
      simp only [List.cons_append, List.nil_append]
      exact parseVal_true f rest
  | .bool false, fuel, rest, _, hf, _ => by
    cases fuel with
    | zero => exact absurd hf (by simp)
    | succ f =>
      show parseVal (f + 1) (['f', 'a', 'l', 's', 'e'] ++ rest) = _
      simp only [List.cons_append, List.nil_append]
      exact parseVal_false f rest
  | .num i, fuel, rest, _, hf, hr => by
    cases fuel with
    | zero => exact absurd hf (by simp)
    | succ f =>
      show parseVal (f + 1) (intToStr i ++ rest) = some (.num i, rest)
      obtain ⟨c, t, he, hc⟩ := intToStr_head i
      rw [he, List.cons_append, parseVal_num_head f c _ hc, ← List.cons_append, ← he,
          parseNum_intToStr i rest hr]
  | .str s, fuel, rest, _, hf, _ => by
    cases fuel with
    | zero => exact absurd hf (by simp)
    | succ f =>
      show parseVal (f + 1) (('"' :: escBody s ++ ['"']) ++ rest) = some (.str s, rest)
      have hshape : ('"' :: escBody s ++ ['"']) ++ rest = '"' :: (escBody s ++ '"' :: rest) := by
        simp
      rw [hshape, parseVal_quote f _, parseStrBody_escBody s rest]
      rfl
  | .arr [], fuel, rest, _, hf, _ => by
    cases fuel with
    | zero => exact absurd hf (by simp)
    | succ f =>
      show parseVal (f + 1) (['[', ']'] ++ rest) = _
      simp only [List.cons_append, List.nil_append]
      rw [parseVal_arr_head f _, skipWs_not_ws (by decide)]
      simp
  | .arr (x :: xs), fuel, rest, hwf, hf, hr => by
    cases fuel with
    | zero => exact absurd hf (by simp)
    | succ f =>
      have hwf2 : Json.wfListB (x :: xs) = true := hwf
      rw [dumpsVal_arr_cons x xs] at hf ⊢
      have hshape : ('[' :: (dumpsVal x ++ dumpsArrTail xs) ++ [']']) ++ rest
          = '[' :: ((dumpsVal x ++ dumpsArrTail xs) ++ ']' :: rest) := by simp
      rw [hshape, parseVal_arr_head f _]
      obtain ⟨c, t, he, hws, hbr⟩ := dumpsVal_head x
      have hshape2 : (dumpsVal x ++ dumpsArrTail xs) ++ ']' :: rest
          = c :: (t ++ (dumpsArrTail xs ++ ']' :: rest)) := by rw [he]; simp
      have hlen : (dumpsVal x).length + (dumpsArrTail xs).length + 1 < f := by
        simp only [List.length_append, List.length_cons, List.length_nil] at hf
        omega
      have hrec := parseElems_dumps x xs f rest hwf2 hlen hr
      rw [hshape2, skipWs_not_ws hws]
      simp only [hbr, if_false, ← hshape2, hrec]
  | .obj [], fuel, rest, _, hf, _ => by
    cases fuel with
    | zero => exact absurd hf (by simp)
    | succ f =>
      show parseVal (f + 1) ([lbrace, rbrace] ++ rest) = _
      simp only [List.cons_append, List.nil_append]
      rw [parseVal_obj_head f _, skipWs_not_ws (by decide)]
      simp
  | .obj ((k, v) :: kvs), fuel, rest, hwf, hf, hr => by
    cases fuel with
    | zero => exact absurd hf (by simp)
    | succ f =>
      have hwfobj : Json.WFb (.obj ((k, v) :: kvs))
          = (nodupKeysB ((k, v) :: kvs) && Json.wfMembersB ((k, v) :: kvs)) := by
        simp [Json.WFb]
      rw [hwfobj] at hwf
      obtain ⟨hnd, hwfm⟩ := Bool.and_eq_true_iff.mp hwf
      obtain ⟨hwfv, hwfkvs⟩ := wfMembersB_cons hwfm
      rw [dumpsVal_obj_cons k v kvs] at hf ⊢
      have hshape : (lbrace :: (('"' :: escBody k ++ ['"']) ++ ':' :: ' ' :: dumpsVal v
            ++ dumpsObjTail kvs) ++ [rbrace]) ++ rest
          = lbrace :: ((('"' :: escBody k ++ ['"']) ++ ':' :: ' ' :: dumpsVal v
            ++ dumpsObjTail kvs) ++ rbrace :: rest) := by simp
      rw [hshape, parseVal_obj_head f _]
      have hshape2 : (('"' :: escBody k ++ ['"']) ++ ':' :: ' ' :: dumpsVal v
            ++ dumpsObjTail kvs) ++ rbrace :: rest
          = '"' :: (((escBody k ++ ['"']) ++ ':' :: ' ' :: dumpsVal v
            ++ dumpsObjTail kvs) ++ rbrace :: rest) := by simp
      have hlen : (('"' :: escBody k ++ ['"']) ++ ':' :: ' ' :: dumpsVal v
            ++ dumpsObjTail kvs).length + 1 < f := by
        simp only [List.length_append, List.length_cons, List.length_nil] at hf ⊢
        omega
      have hq : ¬('"' = rbrace) := by decide
      have hrec := parseMembers_dumps k v kvs f rest hwfv hwfkvs hlen
      rw [hshape2, skipWs_not_ws (by decide)]
      simp only [hq, if_false, ← hshape2, hrec]
      rw [buildDict_nodup _ hnd]
  termination_by _ fuel => fuel
theorem parseElems_dumps : ∀ (x : Json) (xs : List Json) (fuel : Nat) (rest : Str),
    Json.wfListB (x :: xs) = true →
    (dumpsVal x).length + (dumpsArrTail xs).length + 1 < fuel → restStopB rest = true →
    parseElems fuel ((dumpsVal x ++ dumpsArrTail xs) ++ ']' :: rest) = some (x :: xs, rest)
  | x, xs, fuel, rest, hwf, hf, hr => by
    cases fuel with
    | zero => exact absurd hf (by omega)
    | succ f =>
      obtain ⟨hwfx, hwfxs⟩ := wfListB_cons hwf
      simp only [parseElems]
      have hshape : (dumpsVal x ++ dumpsArrTail xs) ++ ']' :: rest
          = dumpsVal x ++ (dumpsArrTail xs ++ ']' :: rest) := by simp
      rw [hshape, parseVal_dumps x f _ hwfx (by omega) (restStopB_arrTail xs rest)]
      cases xs with
      | nil =>
        have htail : dumpsArrTail ([] : List Json) ++ ']' :: rest = ']' :: rest := by
          simp [dumpsArrTail]
        have hskipws : skipWs (']' :: rest) = ']' :: rest :=
          skipWs_not_ws (by decide) rest
        simp [htail, hskipws]
      | cons y ys =>
        rw [dumpsArrTail_cons y ys] at hf ⊢
        obtain ⟨c, t, he, hws, _⟩ := dumpsVal_head y
        have hskipc : ∀ X : Str, skipWs (',' :: X) = ',' :: X :=
          fun X => skipWs_not_ws (by decide) X
        have hskip : skipWs (' ' :: (dumpsVal y ++ (dumpsArrTail ys ++ ']' :: rest)))
            = dumpsVal y ++ (dumpsArrTail ys ++ ']' :: rest) := by
          rw [skipWs_space, he, List.cons_append, skipWs_not_ws hws, ← List.cons_append, ← he]
        have hlen : (dumpsVal y).length + (dumpsArrTail ys).length + 1 < f := by
          simp only [List.length_append, List.length_cons, List.length_nil] at hf
          omega
        have hrec := parseElems_dumps y ys f rest hwfxs hlen hr
        have hrec2 : parseElems f (dumpsVal y ++ (dumpsArrTail ys ++ ']' :: rest))
            = some (y :: ys, rest) := by
          rw [← List.append_assoc]
          exact hrec
        simp only [List.cons_append, List.nil_append, List.append_assoc,
          List.singleton_append] at hskip hrec2 ⊢
        simp [hskipc, hskip, hrec2]
  termination_by _ _ fuel => fuel
theorem parseMembers_dumps : ∀ (k : Str) (v : Json) (kvs : List (Str × Json)) (fuel : Nat)
      (rest : Str),
    Json.WFb v = true → Json.wfMembersB kvs = true →
    (('"' :: escBody k ++ ['"']) ++ ':' :: ' ' :: dumpsVal v ++ dumpsObjTail kvs).length + 1
      < fuel →
    parseMembers fuel
        ((('"' :: escBody k ++ ['"']) ++ ':' :: ' ' :: dumpsVal v ++ dumpsObjTail kvs)
          ++ rbrace :: rest)
      = some ((k, v) :: kvs, rest)
  | k, v, kvs, fuel, rest, hwfv, hwfkvs, hf => by
    cases fuel with
    | zero => exact absurd hf (by omega)
    | succ f =>
      have hshape : (('"' :: escBody k ++ ['"']) ++ ':' :: ' ' :: dumpsVal v
            ++ dumpsObjTail kvs) ++ rbrace :: rest
          = '"' :: (escBody k ++ '"' :: (':' :: (' ' :: (dumpsVal v
            ++ (dumpsObjTail kvs ++ rbrace :: rest))))) := by simp
      rw [hshape]
      simp only [parseMembers]
      rw [parseStrBody_escBody k _]
      obtain ⟨c, t, he, hws, _⟩ := dumpsVal_head v
      have hcolon : ∀ X : Str, skipWs (':' :: X) = ':' :: X :=
        fun X => skipWs_not_ws (by decide) X
      have hskip : skipWs (' ' :: (dumpsVal v ++ (dumpsObjTail kvs ++ rbrace :: rest)))
          = dumpsVal v ++ (dumpsObjTail kvs ++ rbrace :: rest) := by
        rw [skipWs_space, he, List.cons_append, skipWs_not_ws hws, ← List.cons_append, ← he]
      have hlenv : (dumpsVal v).length < f := by
        simp only [List.length_append, List.length_cons, List.length_nil] at hf
        omega
      have hval := parseVal_dumps v f (dumpsObjTail kvs ++ rbrace :: rest) hwfv hlenv
        (restStopB_objTail kvs rest)
      cases kvs with
      | nil =>
        have htail : dumpsObjTail ([] : List (Str × Json)) ++ rbrace :: rest
            = rbrace :: rest := by
          simp [dumpsObjTail]
        have hskipr : skipWs (rbrace :: rest) = rbrace :: rest :=
          skipWs_not_ws (by decide) rest
        have hrb1 : ¬(rbrace = ',') := by decide
        rw [htail] at hskip hval
        simp [hcolon, hskip, hval, htail, hskipr, hrb1]
      | cons kv2 kvs2 =>
        obtain ⟨k2, v2⟩ := kv2
        obtain ⟨hwfv2, hwfkvs2⟩ := wfMembersB_cons hwfkvs
        rw [dumpsObjTail_cons k2 v2 kvs2] at hf hval hskip ⊢
        have hskipc : ∀ X : Str, skipWs (',' :: X) = ',' :: X :=
          fun X => skipWs_not_ws (by decide) X
        obtain ⟨c2, t2, he2, hws2, _⟩ := dumpsVal_head v2
        have hquote : ∀ X : Str, skipWs ('"' :: X) = '"' :: X :=
          fun X => skipWs_not_ws (by decide) X
        have hlen2 : (('"' :: escBody k2 ++ ['"']) ++ ':' :: ' ' :: dumpsVal v2
              ++ dumpsObjTail kvs2).length + 1 < f := by
          simp only [List.length_append, List.length_cons, List.length_nil] at hf ⊢
          omega
        have hrec := parseMembers_dumps k2 v2 kvs2 f rest hwfv2 hwfkvs2 hlen2
        simp only [List.cons_append, List.nil_append, List.append_assoc,
          List.singleton_append] at hskip hval hrec ⊢
        simp [hcolon, hskip, hval, hskipc, hquote, hrec, skipWs_space]
  termination_by _ _ _ fuel => fuel
end

theorem loads_dumps (j : Json) (h : Json.WFb j = true) : loads (dumpsVal j) = some j := by
  rw [loads]
  obtain ⟨c, t, he, hws, _⟩ := dumpsVal_head j
  have hskip : skipWs (dumpsVal j) = dumpsVal j := by
    rw [he, skipWs_not_ws hws]
  rw [hskip]
  have hrt := parseVal_dumps j ((dumpsVal j).length + 1) [] h (by omega) rfl
  rw [List.append_nil] at hrt
  rw [hrt]
  rfl

/-! ## Lemmas: the serializer emits printable ASCII -/

theorem char_toNat_of_lt (m : Nat) (h : m < 55296) : (Char.ofNat m).toNat = m := by
  have hv : m.isValidChar := Or.inl h
  simp [Char.ofNat, hv, Char.ofNatAux, Char.toNat, UInt32.toNat, UInt32.ofNatCore]

theorem hexDigit_range (d : Nat) (h : d < 16) :
    32 ≤ (hexDigit d).toNat ∧ (hexDigit d).toNat ≤ 126 := by
  unfold hexDigit
  split
  · rw [char_toNat_of_lt _ (by omega)]; omega
  · rw [char_toNat_of_lt _ (by omega)]; omega

theorem uEsc_range (n : Nat) : ∀ d ∈ uEsc n, 32 ≤ d.toNat ∧ d.toNat ≤ 126 := by
  intro d hd
  simp only [uEsc, List.mem_cons, List.not_mem_nil, or_false] at hd
  rcases hd with h | h | h | h | h | h
  · subst h; decide
  · subst h; decide
  · subst h; exact hexDigit_range _ (by omega)
  · subst h; exact hexDigit_range _ (by omega)
  · subst h; exact hexDigit_range _ (by omega)
  · subst h; exact hexDigit_range _ (by omega)

theorem escChar_range (c : Char) : ∀ d ∈ escChar c, 32 ≤ d.toNat ∧ d.toNat ≤ 126 := by
  intro d hd
  unfold escChar at hd
  repeat' split at hd
  all_goals first
    | (simp only [List.mem_cons, List.not_mem_nil, or_false] at hd
       rcases hd with h | h <;> subst h <;> decide)
    | (rw [List.mem_singleton] at hd; subst hd; assumption)
    | (exact uEsc_range _ d hd)
    | (rcases List.mem_append.mp hd with h | h
       · exact uEsc_range _ d h
       · exact uEsc_range _ d h)

theorem escBody_range (s : Str) : ∀ d ∈ escBody s, 32 ≤ d.toNat ∧ d.toNat ≤ 126 := by
  intro d hd
  simp only [escBody, List.mem_flatten, List.mem_map] at hd
  obtain ⟨l, ⟨c, _, hc⟩, hdl⟩ := hd
  subst hc
  exact escChar_range c d hdl

theorem natToStr_range (n : Nat) : ∀ d ∈ natToStr n, 32 ≤ d.toNat ∧ d.toNat ≤ 126 := by
  intro d hd
  unfold natToStr at hd
  split at hd
  · rw [List.mem_singleton] at hd; subst hd; decide
  · have hdig := natDigits_digits n d hd
    simp only [isDigitChar, Bool.and_eq_true, decide_eq_true_eq] at hdig
    omega

theorem intToStr_range (i : Int) : ∀ d ∈ intToStr i, 32 ≤ d.toNat ∧ d.toNat ≤ 126 := by
  intro d hd
  cases i with
  | ofNat n => exact natToStr_range n d hd
  | negSucc m =>
    simp only [intToStr, List.mem_cons] at hd
    rcases hd with h | h
    · subst h; decide
    · exact natToStr_range (m + 1) d h

mutual
theorem dumpsVal_range : ∀ (j : Json), ∀ d ∈ dumpsVal j, 32 ≤ d.toNat ∧ d.toNat ≤ 126
  | .null, d, hd => by
    have hall : ∀ x ∈ dumpsVal Json.null, 32 ≤ x.toNat ∧ x.toNat ≤ 126 := by decide
    exact hall d hd
  | .bool true, d, hd => by
    have hall : ∀ x ∈ dumpsVal (Json.bool true), 32 ≤ x.toNat ∧ x.toNat ≤ 126 := by decide
    exact hall d hd
  | .bool false, d, hd => by
    have hall : ∀ x ∈ dumpsVal (Json.bool false), 32 ≤ x.toNat ∧ x.toNat ≤ 126 := by
      decide
    exact hall d hd
  | .num i, d, hd => intToStr_range i d hd
  | .str s, d, hd => by
    simp only [dumpsVal, List.mem_cons, List.mem_append, List.not_mem_nil, or_false,
      or_assoc] at hd
    rcases hd with h | h | h
    · subst h; decide
    · exact escBody_range s d h
    · subst h; decide
  | .arr [], d, hd => by
    simp only [dumpsVal, List.mem_cons, List.not_mem_nil, or_false, or_assoc] at hd
    rcases hd with h | h <;> subst h <;> decide
  | .arr (x :: xs), d, hd => by
    simp only [dumpsVal, List.mem_cons, List.mem_append, List.not_mem_nil, or_false,
      or_assoc] at hd
    rcases hd with h | h | h | h
    · subst h; decide
    · exact dumpsVal_range x d h
    · exact dumpsArrTail_range xs d h
    · subst h; decide
  | .obj [], d, hd => by
    simp only [dumpsVal, List.mem_cons, List.not_mem_nil, or_false, or_assoc] at hd
    rcases hd with h | h <;> subst h <;> decide
  | .obj ((k, v) :: kvs), d, hd => by
    simp only [dumpsVal, List.mem_cons, List.mem_append, List.not_mem_nil, or_false,
      or_assoc] at hd
    rcases hd with h | h | h | h | h | h | h | h | h
    · subst h; decide
    · subst h; decide
    · exact escBody_range k d h
    · subst h; decide
    · subst h; decide
    · subst h; decide
    · exact dumpsVal_range v d h
    · exact dumpsObjTail_range kvs d h
    · subst h; decide
  termination_by j _ _ => sizeOf j
theorem dumpsArrTail_range : ∀ (xs : List Json), ∀ d ∈ dumpsArrTail xs,
    32 ≤ d.toNat ∧ d.toNat ≤ 126
  | [], d, hd => absurd hd (List.not_mem_nil d)
  | x :: xs, d, hd => by
    simp only [dumpsArrTail, List.mem_cons, List.mem_append, or_assoc] at hd
    rcases hd with h | h | h | h
    · subst h; decide
    · subst h; decide
    · exact dumpsVal_range x d h
    · exact dumpsArrTail_range xs d h
  termination_by xs _ _ => sizeOf xs
theorem dumpsObjTail_range : ∀ (kvs : List (Str × Json)), ∀ d ∈ dumpsObjTail kvs,
    32 ≤ d.toNat ∧ d.toNat ≤ 126
  | [], d, hd => absurd hd (List.not_mem_nil d)
  | (k, v) :: kvs, d, hd => by
    simp only [dumpsObjTail, List.mem_cons, List.mem_append, List.not_mem_nil, or_false,
      or_assoc] at hd
    rcases hd with h | h | h | h | h | h | h | h | h
    · subst h; decide
    · subst h; decide
    · subst h; decide
    · exact escBody_range k d h
    · subst h; decide
    · subst h; decide
    · subst h; decide
    · exact dumpsVal_range v d h
    · exact dumpsObjTail_range kvs d h
  termination_by kvs _ _ => sizeOf kvs
end

theorem dumpsVal_noCRLF (j : Json) : noOcc2 '\r' '\n' (dumpsVal j) = true := by
  refine noOcc2_of_all _ _ _ (fun c hc => ?_)
  have hr := dumpsVal_range j c hc
  intro e
  subst e
  exact absurd hr.1 (by decide)

/-! ## Lemmas: request framing -/

theorem sliceOneToNegTwo_spec {α : Type} (a b c : α) (hs : List α) :
    sliceOneToNegTwo (a :: (hs ++ [b, c])) = hs := by
  have hshape : a :: (hs ++ [b, c]) = (a :: hs) ++ [b, c] := by simp
  unfold sliceOneToNegTwo
  rw [hshape]
  have hlen : ((a :: hs) ++ [b, c]).length - 2 = (a :: hs).length := by
    simp only [List.length_append, List.length_cons, List.length_nil]
    omega
  rw [hlen, List.take_left]
  rfl

theorem getLastD_shape {α : Type} (a b c d : α) (hs : List α) :
    (a :: (hs ++ [b, c])).getLastD d = c := by
  have hshape : a :: (hs ++ [b, c]) = (a :: (hs ++ [b])) ++ [c] := by simp
  rw [hshape, List.getLastD_concat]

theorem tokenOk_no_space {s : Str} (h : tokenOkB s = true) : ' ' ∉ s := by
  simp only [tokenOkB, Bool.and_eq_true, Bool.not_eq_true', List.any_eq_false,
    beq_iff_eq] at h
  exact fun hm => h.1 ' ' hm rfl

theorem tokenOk_noCRLF {s : Str} (h : tokenOkB s = true) : noOcc2 '\r' '\n' s = true := by
  simp only [tokenOkB, Bool.and_eq_true] at h
  exact h.2

theorem headerPairOk_split (kv : Str × Str) (h : headerPairOkB kv = true) :
    noOcc2 ':' ' ' kv.1 = true ∧ noOcc2 ':' ' ' kv.2 = true ∧
    noOcc2 '\r' '\n' kv.1 = true ∧ noOcc2 '\r' '\n' kv.2 = true := by
  simp only [headerPairOkB, Bool.and_eq_true] at h
  exact ⟨h.1.1.1, h.1.1.2, h.1.2, h.2⟩

theorem pySplit_three_tokens (m r v : Str) (hm : ' ' ∉ m) (hr : ' ' ∉ r) (hv : ' ' ∉ v) :
    pySplit [' '] (m ++ (' ' :: r) ++ (' ' :: v)) = [m, r, v] := by
  have hshape : m ++ (' ' :: r) ++ (' ' :: v) = m ++ ' ' :: (r ++ ' ' :: v) := by simp
  rw [hshape, pySplit_single_sep_append ' ' m _ hm,
    pySplit_single_sep_append ' ' r v hr, pySplit_single_sep_all ' ' v hv]

theorem header_line_split (k v : Str) (hk : noOcc2 ':' ' ' k = true)
    (hv : noOcc2 ':' ' ' v = true) :
    pySplit colonSpace (k ++ ':' :: ' ' :: v) = [k, v] := by
  show pySplit [':', ' '] (k ++ ':' :: ' ' :: v) = [k, v]
  rw [pySplit_pair_sep_append ':' ' ' (by decide) k v hk, pySplit_pair_sep_all ':' ' ' v hv]

theorem split_len2_shape (l : Str) (h : (pySplit colonSpace l).length = 2) :
    ∃ k v, pySplit colonSpace l = [k, v] := by
  match hx : pySplit colonSpace l with
  | [k, v] => exact ⟨k, v, rfl⟩
  | [] => rw [hx] at h; simp at h
  | [k] => rw [hx] at h; simp at h
  | a :: b :: c :: t =>
    rw [hx] at h
    simp only [List.length_cons] at h
    omega

theorem getHeadersAux_encode :
    ∀ (hs acc : List (Str × Str)), hs.all headerPairOkB = true →
      getHeadersAux (hs.map (fun kv => kv.1 ++ ':' :: ' ' :: kv.2)) acc
        = .ok (List.foldl (fun d kv => dictSet d kv.1 kv.2) acc hs) := by
  intro hs
  induction hs with
  | nil => intro acc _; rfl
  | cons kv rest ih =>
    intro acc hall
    simp only [List.all_cons, Bool.and_eq_true] at hall
    obtain ⟨k, v⟩ := kv
    obtain ⟨hk1, hv1, _, _⟩ := headerPairOk_split (k, v) hall.1
    simp only [List.map_cons, List.foldl_cons, getHeadersAux]
    rw [header_line_split k v hk1 hv1]
    exact ih (dictSet acc k v) hall.2

theorem get_headers_encode (hs : List (Str × Str)) (hall : hs.all headerPairOkB = true)
    (hnd : nodupKeysB hs = true) :
    get_headers (hs.map (fun kv => kv.1 ++ ':' :: ' ' :: kv.2)) = .ok hs := by
  unfold get_headers
  rw [getHeadersAux_encode hs [] hall]
  have hb := buildDict_nodup hs hnd
  unfold buildDict at hb
  rw [hb]

theorem getHeadersAux_ok_of :
    ∀ (lines : List Str) (acc : List (Str × Str)),
      (∀ l ∈ lines, (pySplit colonSpace l).length = 2) →
      ∃ hs, getHeadersAux lines acc = .ok hs := by
  intro lines
  induction lines with
  | nil => intro acc _; exact ⟨acc, rfl⟩
  | cons l rest ih =>
    intro acc hall
    obtain ⟨k, v, hsp⟩ := split_len2_shape l (hall l (by simp))
    simp only [getHeadersAux]
    rw [hsp]
    exact ih (dictSet acc k v) (fun l2 hm => hall l2 (by simp [hm]))

theorem getHeadersAux_error_of :
    ∀ (lines : List Str) (acc : List (Str × Str)),
      (∃ l ∈ lines, (pySplit colonSpace l).length ≠ 2) →
      getHeadersAux lines acc = .error .valueError := by
  intro lines
  induction lines with
  | nil =>
    intro acc h
    obtain ⟨l, hm, _⟩ := h
    exact absurd hm (List.not_mem_nil l)
  | cons l rest ih =>
    intro acc h
    by_cases hl : (pySplit colonSpace l).length = 2
    · obtain ⟨k, v, hsp⟩ := split_len2_shape l hl
      simp only [getHeadersAux]
      rw [hsp]
      obtain ⟨l2, hm2, hbad⟩ := h
      rcases List.mem_cons.mp hm2 with he | hm3
      · subst he; exact absurd hl hbad
      · exact ih (dictSet acc k v) ⟨l2, hm3, hbad⟩
    · match hx : pySplit colonSpace l with
      | [] => simp only [getHeadersAux]; rw [hx]
      | [k] => simp only [getHeadersAux]; rw [hx]
      | [k, v] => exact absurd (by rw [hx]; rfl) hl
      | a :: b :: c :: t => simp only [getHeadersAux]; rw [hx]

/-! ## Lemmas: the request round trip -/

theorem requestWF_split (r : Request) (h : requestWFb r = true) :
    tokenOkB r.method = true ∧ tokenOkB r.resource = true ∧ tokenOkB r.http_version = true ∧
    r.headers.all headerPairOkB = true ∧ nodupKeysB r.headers = true ∧
    (∀ v, r.body = some v → Json.WFb v = true) := by
  simp only [requestWFb, Bool.and_eq_true] at h
  refine ⟨h.1.1.1.1.1, h.1.1.1.1.2, h.1.1.1.2, h.1.1.2, h.1.2, ?_⟩
  intro v hv
  rw [hv] at h
  exact h.2

/-- C2: for every well-formed request value (three space-free CRLF-free
tokens, header names and values free of the colon-space separator and of
CRLF, pairwise distinct header names, and a body that is absent or a
faithful JSON value), serializing it in the wire framing and decoding the
result with `process_request` yields the request back exactly. -/
theorem claim_C2_round_trip (r : Request) (h : requestWFb r = true) :
    process_request (encode_request r) = .ok r := by
  obtain ⟨hm, hres, hver, hall, hnd, hbody⟩ := requestWF_split r h
  have hbodyCRLF : noOcc2 '\r' '\n' (match r.body with
      | none => ([] : Str) | some v => dumpsVal v) = true := by
    cases hb : r.body with
    | none => rfl
    | some v => exact dumpsVal_noCRLF v
  have hlines : ∀ l ∈ (r.method ++ (' ' :: r.resource) ++ (' ' :: r.http_version))
        :: ((r.headers.map (fun kv => kv.1 ++ ':' :: ' ' :: kv.2)) ++
          [[], (match r.body with | none => ([] : Str) | some v => dumpsVal v)]),
      noOcc2 '\r' '\n' l = true := by
    intro l hl
    rcases List.mem_cons.mp hl with he | hl2
    · subst he
      have hin : noOcc2 '\r' '\n' (r.resource ++ ' ' :: r.http_version) = true :=
        noOcc2_append_cons _ _ ' ' _ _ (tokenOk_noCRLF hres) (tokenOk_noCRLF hver)
          (by decide) (by decide)
      have hline : noOcc2 '\r' '\n'
          (r.method ++ ' ' :: (r.resource ++ ' ' :: r.http_version)) = true :=
        noOcc2_append_cons _ _ ' ' _ _ (tokenOk_noCRLF hm) hin (by decide) (by decide)
      have hshape : r.method ++ (' ' :: r.resource) ++ (' ' :: r.http_version)
          = r.method ++ ' ' :: (r.resource ++ ' ' :: r.http_version) := by simp
      rw [hshape]
      exact hline
    · rcases List.mem_append.mp hl2 with hh | ht
      · obtain ⟨kv, hkv, he⟩ := List.mem_map.mp hh
        subst he
        have hmem : headerPairOkB kv = true := by
          simp only [List.all_eq_true] at hall
          exact hall kv hkv
        have hok := headerPairOk_split kv hmem
        exact noOcc2_append_cons _ _ ':' _ _ hok.2.2.1
          (noOcc2_cons_of _ _ ' ' _ (by decide) hok.2.2.2) (by decide) (by decide)
      · rcases List.mem_cons.mp ht with he | ht2
        · subst he; rfl
        · rcases List.mem_cons.mp ht2 with he | ht3
          · subst he; exact hbodyCRLF
          · exact absurd ht3 (List.not_mem_nil l)
  have hsegs : pySplit CRLF (encode_request r)
      = (r.method ++ (' ' :: r.resource) ++ (' ' :: r.http_version))
        :: ((r.headers.map (fun kv => kv.1 ++ ':' :: ' ' :: kv.2)) ++
          [[], (match r.body with | none => ([] : Str) | some v => dumpsVal v)]) := by
    show pySplit ['\r', '\n'] (pyJoin ['\r', '\n'] _) = _
    exact pySplit_pyJoin_pair '\r' '\n' (by decide) _ (by simp) hlines
  have hsplit3 : pySplit [' '] ((pySplit CRLF (encode_request r)).headD [])
      = [r.method, r.resource, r.http_version] := by
    rw [hsegs]
    exact pySplit_three_tokens _ _ _ (tokenOk_no_space hm) (tokenOk_no_space hres)
      (tokenOk_no_space hver)
  have hgh : get_headers (sliceOneToNegTwo (pySplit CRLF (encode_request r)))
      = .ok r.headers := by
    rw [hsegs, sliceOneToNegTwo_spec]
    exact get_headers_encode r.headers hall hnd
  have hgb : get_body ((pySplit CRLF (encode_request r)).getLastD []) = .ok r.body := by
    rw [hsegs, getLastD_shape]
    cases hb : r.body with
    | none => rfl
    | some v =>
      have hwf := hbody v hb
      obtain ⟨c, t, he, _, _⟩ := dumpsVal_head v
      have hne : (dumpsVal v).isEmpty = false := by rw [he]; rfl
      unfold get_body
      simp [hne, loads_dumps v hwf]
  simp only [process_request, hsplit3, hgh, hgb]

/-! ## Lemmas: decoder failure analysis -/

theorem get_body_empty : get_body [] = .ok none := rfl

theorem get_body_error_iff (b : Str) (e : PyErr) :
    get_body b = .error e ↔ (e = .jsonError ∧ b ≠ [] ∧ loads b = none) := by
  unfold get_body
  by_cases hb : b.isEmpty = true
  · have hbe : b = [] := List.isEmpty_iff.mp hb
    subst hbe
    simp
  · have hb2 : b ≠ [] := by
      intro e2
      subst e2
      exact hb rfl
    rw [if_neg hb]
    cases hl : loads b with
    | some v => simp [hl]
    | none =>
      simp [hl, hb2]
      exact eq_comm

theorem get_body_ok_of (b : Str) (h : ¬(b ≠ [] ∧ loads b = none)) :
    ∃ ob, get_body b = .ok ob := by
  unfold get_body
  by_cases hb : b.isEmpty = true
  · rw [if_pos hb]
    exact ⟨none, rfl⟩
  · rw [if_neg hb]
    have hb2 : b ≠ [] := by
      intro e2
      subst e2
      exact hb rfl
    cases hl : loads b with
    | some v => exact ⟨some v, rfl⟩
    | none => exact absurd ⟨hb2, hl⟩ h

theorem getHeadersAux_error_shape :
    ∀ (lines : List Str) (acc : List (Str × Str)) (e : PyErr),
      getHeadersAux lines acc = .error e →
      e = .valueError ∧ ∃ l ∈ lines, (pySplit colonSpace l).length ≠ 2 := by
  intro lines
  induction lines with
  | nil =>
    intro acc e h
    exact absurd h (by simp [getHeadersAux])
  | cons l rest ih =>
    intro acc e h
    match hx : pySplit colonSpace l with
    | [k, v] =>
      simp only [getHeadersAux, hx] at h
      obtain ⟨he, l2, hm, hbad⟩ := ih _ _ h
      exact ⟨he, l2, by simp [hm], hbad⟩
    | [] =>
      simp only [getHeadersAux, hx, Except.error.injEq] at h
      exact ⟨h.symm, l, by simp, by rw [hx]; decide⟩
    | [k] =>
      simp only [getHeadersAux, hx, Except.error.injEq] at h
      exact ⟨h.symm, l, by simp, by rw [hx]; simp⟩
    | a :: b :: c :: t =>
      simp only [getHeadersAux, hx, Except.error.injEq] at h
      refine ⟨h.symm, l, by simp, ?_⟩
      rw [hx]
      simp only [List.length_cons]
      omega

theorem process_request_bad_line (raw : Str)
    (h : (pySplit [' '] ((pySplit CRLF raw).headD [])).length ≠ 3) :
    process_request raw = .error .valueError := by
  match hx : pySplit [' '] ((pySplit CRLF raw).headD []) with
  | [] => simp only [process_request, hx]
  | [a] => simp only [process_request, hx]
  | [a, b] => simp only [process_request, hx]
  | [a, b, c] => rw [hx] at h; simp at h
  | a :: b :: c :: d :: t => simp only [process_request, hx]

theorem process_request_eq (raw : Str) (m res ver : Str)
    (h3 : pySplit [' '] ((pySplit CRLF raw).headD []) = [m, res, ver]) :
    process_request raw
      = match get_headers (sliceOneToNegTwo (pySplit CRLF raw)) with
        | .error e => .error e
        | .ok hs =>
          match get_body ((pySplit CRLF raw).getLastD []) with
          | .error e => .error e
          | .ok b => .ok ⟨m, res, ver, hs, b⟩ := by
  simp only [process_request, h3]

/-! ## Lemmas: the dispatcher's routing-failure responses -/

theorem respond_404 (cfg : ServerCfg) (now ver : Str) :
    respond cfg now ver 404 none
      = .ok ⟨ver, 404, "Not Found".toList,
          generate_response_headers cfg now ("Not Found".toList),
          "Not Found".toList⟩ := rfl

theorem respond_405 (cfg : ServerCfg) (now ver : Str) :
    respond cfg now ver 405 none
      = .ok ⟨ver, 405, "Not Allowed".toList,
          generate_response_headers cfg now ("Not Allowed".toList),
          "Not Allowed".toList⟩ := rfl

theorem respond_ok_shape (cfg : ServerCfg) (now ver : Str) (sc : Nat) (hc : Option Str)
    (resp : Response) (h : respond cfg now ver sc hc = .ok resp) :
    resp.headers = generate_response_headers cfg now resp.body := by
  unfold respond at h
  split at h
  · exact absurd h (by simp)
  · unfold Response.make at h
    split at h
    · exact absurd h (by simp)
    · injection h with h
      subst h
      rfl

theorem handle_request_headers_shape (cfg : ServerCfg) (db : CsvTable) (now : Str)
    (r : Request) (resp : Response) (h : handle_request cfg db now r = .ok resp) :
    resp.headers = generate_response_headers cfg now resp.body := by
  unfold handle_request at h
  cases h1 : (pySplit ['/'] r.resource)[1]? with
  | none => simp [h1] at h
  | some c =>
    simp only [h1] at h
    cases h2 : dictLookup collections c with
    | none =>
      simp only [h2] at h
      exact respond_ok_shape _ _ _ _ _ _ h
    | some methods =>
      simp only [h2] at h
      cases h3 : dictLookup methods r.method with
      | none =>
        simp only [h3] at h
        exact respond_ok_shape _ _ _ _ _ _ h
      | some handler =>
        simp only [h3] at h
        cases h4 : runHandler db handler r with
        | error e => simp [h4] at h
        | ok pair =>
          obtain ⟨sc, content⟩ := pair
          simp only [h4] at h
          exact respond_ok_shape _ _ _ _ _ _ h

/-! ## Lemmas: the handlers -/

theorem asIntListAux_map : ∀ ns : List Int, asIntListAux (ns.map Json.num) = some ns := by
  intro ns
  induction ns with
  | nil => rfl
  | cons n t ih => simp [asIntListAux, ih]

theorem dictLookup_some_ne_nil {β : Type} {kvs : List (Str × β)} {k : Str} {v : β}
    (h : dictLookup kvs k = some v) : kvs ≠ [] := by
  intro e
  subst e
  simp [dictLookup] at h

theorem movieScan_none (fields : List Str) (title : Str) :
    ∀ rows, (∀ row ∈ rows, ∃ t,
        dictLookup (rowDict fields row) ("Title".toList) = some t ∧ t ≠ title) →
      movieScan fields title rows = .ok none := by
  intro rows
  induction rows with
  | nil => intro _; rfl
  | cons row rest ih =>
    intro h
    obtain ⟨t, ht, hne⟩ := h row (by simp)
    simp only [movieScan, ht]
    rw [if_neg hne]
    exact ih (fun r2 hm => h r2 (by simp [hm]))

theorem movieScan_found (fields : List Str) (title : Str) (row : List Str)
    (rows2 : List (List Str))
    (hrow : dictLookup (rowDict fields row) ("Title".toList) = some title) :
    ∀ rows1, (∀ row1 ∈ rows1, ∃ t,
        dictLookup (rowDict fields row1) ("Title".toList) = some t ∧ t ≠ title) →
      movieScan fields title (rows1 ++ row :: rows2) = .ok (some (rowJson fields row)) := by
  intro rows1
  induction rows1 with
  | nil =>
    intro _
    simp only [List.nil_append, movieScan, hrow]
    simp
  | cons r1 rest ih =>
    intro h
    obtain ⟨t, ht, hne⟩ := h r1 (by simp)
    simp only [List.cons_append, movieScan, ht]
    rw [if_neg hne]
    exact ih (fun r2 hm => h r2 (by simp [hm]))

/-! ## The claims -/

/-- C1: dispatch is deterministic and resolves by (collection, method):
an unknown collection yields a 404 response with body `Not Found`, a
known collection without the request's method yields a 405 response with
body `Not Allowed`, and the selected handler is a function of the
collection and the method alone. -/
theorem claim_C1_dispatch (cfg : ServerCfg) (db : CsvTable) (now : Str) (r : Request) :
    (∀ c, collectionOf r = some c → dictLookup collections c = none →
      ∃ resp, handle_request cfg db now r = .ok resp ∧ resp.status_code = 404 ∧
        resp.body = "Not Found".toList) ∧
    (∀ c methods, collectionOf r = some c → dictLookup collections c = some methods →
      dictLookup methods r.method = none →
      ∃ resp, handle_request cfg db now r = .ok resp ∧ resp.status_code = 405 ∧
        resp.body = "Not Allowed".toList) ∧
    (∀ r2 : Request, collectionOf r2 = collectionOf r → r2.method = r.method →
      selectedHandler r2 = selectedHandler r) := by
  refine ⟨?_, ?_, ?_⟩
  · intro c hc hl
    unfold collectionOf at hc
    refine ⟨⟨r.http_version, 404, "Not Found".toList,
      generate_response_headers cfg now ("Not Found".toList), "Not Found".toList⟩,
      ?_, rfl, rfl⟩
    simp only [handle_request, hc, hl]
    exact respond_404 cfg now r.http_version
  · intro c methods hc hcl hml
    unfold collectionOf at hc
    refine ⟨⟨r.http_version, 405, "Not Allowed".toList,
      generate_response_headers cfg now ("Not Allowed".toList), "Not Allowed".toList⟩,
      ?_, rfl, rfl⟩
    simp only [handle_request, hc, hcl, hml]
    exact respond_405 cfg now r.http_version
  · intro r2 hc hm
    simp only [selectedHandler, hc, hm]

/-- Witness for C1 at concrete inputs: a GET for the unknown collection
`nope` yields 404 `Not Found`, a DELETE on `sort` yields 405
`Not Allowed`. -/
theorem claim_C1_dispatch_witness :
    (∃ resp, handle_request cfgEx dbEx nowEx reqUnknown = .ok resp ∧
      resp.status_code = 404 ∧ resp.body = "Not Found".toList) ∧
    (∃ resp, handle_request cfgEx dbEx nowEx reqDeleteSort = .ok resp ∧
      resp.status_code = 405 ∧ resp.body = "Not Allowed".toList) :=
  ⟨(claim_C1_dispatch cfgEx dbEx nowEx reqUnknown).1 ("nope".toList) rfl rfl,
   (claim_C1_dispatch cfgEx dbEx nowEx reqDeleteSort).2.1 ("sort".toList)
     [("POST".toList, .sortNumbers)] rfl rfl rfl⟩

/-- Witness for C2 at a concrete request with two headers and a JSON
object body holding a list of numbers. -/
theorem claim_C2_round_trip_witness :
    requestWFb reqRoundTrip = true ∧
    process_request (encode_request reqRoundTrip) = .ok reqRoundTrip :=
  ⟨by decide, claim_C2_round_trip reqRoundTrip (by decide)⟩

/-- Counterexample to C3 as stated: `rawHeaderOnly` splits into four
CRLF-separated lines, whose line 2 (the blank line, within lines
1 through n-2) contains no colon-space separator, yet decoding succeeds:
only the `[1:-2]` slice, here line 1 alone, is header-parsed. -/
theorem claim_C3_counterexample :
    pySplit CRLF rawHeaderOnly
      = ["GET /x HTTP/1.1".toList, "A: b".toList, [], []] ∧
    (pySplit colonSpace (pySplit CRLF rawHeaderOnly)[2]!).length ≠ 2 ∧
    process_request rawHeaderOnly
      = .ok ⟨"GET".toList, "/x".toList, "HTTP/1.1".toList,
          [("A".toList, "b".toList)], none⟩ :=
  ⟨rfl, by decide, rfl⟩

/-- C3 (amended): when the request line splits into exactly three
tokens, the decoder header-parses exactly the lines of the Python slice
`[1:-2]` — all lines except the first and the last two: it fails (with
`ValueError`) precisely when some line of that slice does not split on
the colon-space separator into exactly two parts, and on success the
request's header mapping is the one built from that slice. -/
theorem claim_C3_headers_slice (raw m res ver : Str)
    (h3 : pySplit [' '] ((pySplit CRLF raw).headD []) = [m, res, ver]) :
    (process_request raw = .error .valueError ↔
      ∃ l ∈ sliceOneToNegTwo (pySplit CRLF raw), (pySplit colonSpace l).length ≠ 2) ∧
    (∀ hs, get_headers (sliceOneToNegTwo (pySplit CRLF raw)) = .ok hs →
      ∀ req, process_request raw = .ok req → req.headers = hs) := by
  have heq := process_request_eq raw m res ver h3
  constructor
  · constructor
    · intro herr
      rw [heq] at herr
      cases hgh : get_headers (sliceOneToNegTwo (pySplit CRLF raw)) with
      | error e =>
        obtain ⟨_, hex⟩ := getHeadersAux_error_shape _ [] e hgh
        exact hex
      | ok hs =>
        rw [hgh] at herr
        cases hgb : get_body ((pySplit CRLF raw).getLastD []) with
        | error e =>
          rw [hgb] at herr
          have herr2 : (Except.error e : Except PyErr Request)
              = Except.error PyErr.valueError := herr
          injection herr2 with herr2
          have hsh := (get_body_error_iff _ e).mp hgb
          exact absurd (hsh.1.symm.trans herr2) (by decide)
        | ok b =>
          rw [hgb] at herr
          have herr2 : (Except.ok ⟨m, res, ver, hs, b⟩ : Except PyErr Request)
              = Except.error PyErr.valueError := herr
          exact absurd herr2 (by simp)
    · intro hex
      rw [heq]
      have hgh : get_headers (sliceOneToNegTwo (pySplit CRLF raw)) = .error .valueError :=
        getHeadersAux_error_of _ [] hex
      simp only [hgh]
  · intro hs hgh req hok
    rw [heq] at hok
    rw [hgh] at hok
    cases hgb : get_body ((pySplit CRLF raw).getLastD []) with
    | error e =>
      rw [hgb] at hok
      have hok2 : (Except.error e : Except PyErr Request) = Except.ok req := hok
      exact absurd hok2 (by simp)
    | ok b =>
      rw [hgb] at hok
      have hok2 : (Except.ok ⟨m, res, ver, hs, b⟩ : Except PyErr Request)
          = Except.ok req := hok
      injection hok2 with hok2
      rw [← hok2]

/-- Witness for the amended C3 at a concrete input: `rawBadHeader` has a
three-token request line and its `[1:-2]` slice holds the line `bad`,
which does not split on colon-space, so decoding fails. -/
theorem claim_C3_headers_slice_witness :
    pySplit [' '] ((pySplit CRLF rawBadHeader).headD [])
      = ["GET".toList, "/x".toList, "HTTP/1.1".toList] ∧
    (process_request rawBadHeader = .error .valueError ↔
      ∃ l ∈ sliceOneToNegTwo (pySplit CRLF rawBadHeader),
        (pySplit colonSpace l).length ≠ 2) :=
  ⟨rfl, (claim_C3_headers_slice rawBadHeader _ _ _ rfl).1⟩

/-- Counterexample to C4 as stated: a request whose resource yields a
single segment when split on `/` makes the dispatcher raise an uncaught
`IndexError` — it does not return a 404 response. -/
theorem claim_C4_counterexample :
    (pySplit ['/'] reqEmptyResource.resource).length < 2 ∧
    handle_request cfgEx dbEx nowEx reqEmptyResource = .error .indexError :=
  ⟨by decide, rfl⟩

/-- C4 (amended): for every request whose resource yields fewer than two
segments when split on `/`, the dispatcher raises an uncaught
`IndexError` (from `resource.split("/")[1]`, evaluated before any
exception handler is installed) instead of returning a 404 response. -/
theorem claim_C4_short_resource (cfg : ServerCfg) (db : CsvTable) (now : Str)
    (r : Request) (h : (pySplit ['/'] r.resource).length < 2) :
    handle_request cfg db now r = .error .indexError := by
  have hn : (pySplit ['/'] r.resource)[1]? = none := by
    apply List.getElem?_eq_none
    omega
  simp only [handle_request, hn]

/-- Witness for the amended C4 at a concrete input: a resource without
any slash yields one segment, and dispatch raises `IndexError`. -/
theorem claim_C4_short_resource_witness :
    (pySplit ['/'] reqNoSlash.resource).length < 2 ∧
    handle_request cfgEx dbEx nowEx reqNoSlash = .error .indexError :=
  ⟨by decide, claim_C4_short_resource cfgEx dbEx nowEx reqNoSlash (by decide)⟩

theorem len3_shape {α : Type} (l : List α) (h : l.length = 3) : ∃ a b c, l = [a, b, c] := by
  match l with
  | [a, b, c] => exact ⟨a, b, c, rfl⟩
  | [] => simp at h
  | [a] => simp at h
  | [a, b] => simp at h
  | a :: b :: c :: d :: t =>
    simp only [List.length_cons] at h
    omega

/-- C5: decoding fails (with an uncaught exception) exactly when the
raw request is malformed — the first line does not split on single
spaces into exactly three tokens, or a line of the header slice does not
split on colon-space into exactly a pair, or the last line is nonempty
and not valid JSON; and an empty last line is not a failure: the decoded
body is then absent. -/
theorem claim_C5_decode_failures (raw : Str) :
    ((∃ e, process_request raw = .error e) ↔
      ((pySplit [' '] ((pySplit CRLF raw).headD [])).length ≠ 3 ∨
       (∃ l ∈ sliceOneToNegTwo (pySplit CRLF raw), (pySplit colonSpace l).length ≠ 2) ∨
       ((pySplit CRLF raw).getLastD [] ≠ [] ∧
         loads ((pySplit CRLF raw).getLastD []) = none))) ∧
    ((pySplit CRLF raw).getLastD [] = [] →
      ∀ req, process_request raw = .ok req → req.body = none) := by
  constructor
  · constructor
    · intro ⟨e, he⟩
      by_cases h3 : (pySplit [' '] ((pySplit CRLF raw).headD [])).length = 3
      · obtain ⟨m, res, ver, hsp⟩ := len3_shape _ h3
        have heq := process_request_eq raw m res ver hsp
        rw [heq] at he
        cases hgh : get_headers (sliceOneToNegTwo (pySplit CRLF raw)) with
        | error e2 =>
          obtain ⟨_, hex⟩ := getHeadersAux_error_shape _ [] e2 hgh
          exact Or.inr (Or.inl hex)
        | ok hs =>
          rw [hgh] at he
          cases hgb : get_body ((pySplit CRLF raw).getLastD []) with
          | error e2 =>
            have hsh := (get_body_error_iff _ e2).mp hgb
            exact Or.inr (Or.inr ⟨hsh.2.1, hsh.2.2⟩)
          | ok b =>
            rw [hgb] at he
            have he2 : (Except.ok ⟨m, res, ver, hs, b⟩ : Except PyErr Request)
                = Except.error e := he
            exact absurd he2 (by simp)
      · exact Or.inl h3
    · intro hc
      by_cases h3 : (pySplit [' '] ((pySplit CRLF raw).headD [])).length = 3
      · obtain ⟨m, res, ver, hsp⟩ := len3_shape _ h3
        have heq := process_request_eq raw m res ver hsp
        rcases hc with hbad | hbad | hbad
        · exact absurd h3 hbad
        · refine ⟨.valueError, ?_⟩
          rw [heq]
          have hgh : get_headers (sliceOneToNegTwo (pySplit CRLF raw))
              = .error .valueError := getHeadersAux_error_of _ [] hbad
          simp only [hgh]
        · rw [heq]
          cases hgh : get_headers (sliceOneToNegTwo (pySplit CRLF raw)) with
          | error e2 => exact ⟨e2, by simp only [hgh]⟩
          | ok hs =>
            have hgb : get_body ((pySplit CRLF raw).getLastD []) = .error .jsonError :=
              (get_body_error_iff _ _).mpr ⟨rfl, hbad.1, hbad.2⟩
            exact ⟨.jsonError, by simp only [hgh, hgb]⟩
      · exact ⟨.valueError, process_request_bad_line raw h3⟩
  · intro hempty req hok
    by_cases h3 : (pySplit [' '] ((pySplit CRLF raw).headD [])).length = 3
    · obtain ⟨m, res, ver, hsp⟩ := len3_shape _ h3
      have heq := process_request_eq raw m res ver hsp
      rw [heq] at hok
      cases hgh : get_headers (sliceOneToNegTwo (pySplit CRLF raw)) with
      | error e2 =>
        rw [hgh] at hok
        have hok2 : (Except.error e2 : Except PyErr Request) = Except.ok req := hok
        exact absurd hok2 (by simp)
      | ok hs =>
        rw [hgh, hempty] at hok
        have hok2 : (Except.ok ⟨m, res, ver, hs, none⟩ : Except PyErr Request)
            = Except.ok req := hok
        injection hok2 with hok2
        rw [← hok2]
    · have hbad := process_request_bad_line raw h3
      rw [hbad] at hok
      exact absurd hok (by simp)

/-- Witness for C5 at a concrete input: `rawHeaderOnly` ends in an
empty body line, so its decoded body is absent. -/
theorem claim_C5_decode_failures_witness :
    (⟨"GET".toList, "/x".toList, "HTTP/1.1".toList,
      [("A".toList, "b".toList)], none⟩ : Request).body = none :=
  (claim_C5_decode_failures rawHeaderOnly).2 rfl _ rfl

theorem pyFormat_placeholder (rest : Str) (a : Str) (args : List Str) :
    pyFormat (lbrace :: rbrace :: rest) (a :: args) = a ++ pyFormat rest args := rfl

theorem pyFormat_plain (c : Char) (rest : Str) (args : List Str) (h : ¬(c = lbrace)) :
    pyFormat (c :: rest) args = c :: pyFormat rest args := by
  rw [pyFormat.eq_def]
  simp only [if_neg h]

theorem pyFormat_tpl (a b c d e : Str) :
    pyFormat HTTP_RESPONSE_TPL [a, b, c, d, e]
      = a ++ ' ' :: b ++ ' ' :: c ++ '\r' :: '\n' :: d
        ++ '\r' :: '\n' :: '\r' :: '\n' :: e ++ ['\r', '\n'] := by
  have htpl : HTTP_RESPONSE_TPL
      = lbrace :: rbrace :: ' ' :: lbrace :: rbrace :: ' ' :: lbrace :: rbrace
        :: '\r' :: '\n' :: lbrace :: rbrace :: '\r' :: '\n' :: '\r' :: '\n'
        :: lbrace :: rbrace :: '\r' :: '\n' :: [] := by decide
  rw [htpl, pyFormat_placeholder, pyFormat_plain _ _ _ (by decide), pyFormat_placeholder,
    pyFormat_plain _ _ _ (by decide), pyFormat_placeholder,
    pyFormat_plain _ _ _ (by decide), pyFormat_plain _ _ _ (by decide), pyFormat_placeholder,
    pyFormat_plain _ _ _ (by decide), pyFormat_plain _ _ _ (by decide),
    pyFormat_plain _ _ _ (by decide), pyFormat_plain _ _ _ (by decide), pyFormat_placeholder,
    pyFormat_plain _ _ _ (by decide), pyFormat_plain _ _ _ (by decide)]
  simp [pyFormat]

/-- C6: encoding a response produces exactly the bytes of
`<version> <status-code> <status-message>\r\n`, the header lines
`Name: value` joined by CRLF in mapping iteration order, `\r\n\r\n`, the
body, and a trailing `\r\n`, UTF-8 encoded. -/
theorem claim_C6_response_bytes (resp : Response) :
    send_response resp
      = (String.mk (resp.http_version ++ ' ' :: natToStr resp.status_code
          ++ ' ' :: resp.status_message ++ '\r' :: '\n'
          :: pyJoin CRLF (resp.headers.map (fun kv => kv.1 ++ ':' :: ' ' :: hvalStr kv.2))
          ++ '\r' :: '\n' :: '\r' :: '\n' :: resp.body ++ ['\r', '\n'])).toUTF8 := by
  simp only [send_response]
  rw [pyFormat_tpl]

/-- C7: a POST body whose JSON object binds `input` to a list of
numbers makes the sort handler return 200 with the ascending sort of
that list as JSON, and an absent body yields 200 with the empty list. -/
theorem claim_C7_sort (r : Request) :
    (∀ kvs ns, r.body = some (.obj kvs) →
      dictLookup kvs ("input".toList) = some (.arr (ns.map Json.num)) →
      sort_numbers r = .ok (200, dumpsVal (.arr ((pySorted ns).map Json.num))) ∧
      List.Sorted (· ≤ ·) (pySorted ns) ∧ List.Perm (pySorted ns) ns) ∧
    (r.body = none → sort_numbers r = .ok (200, dumpsVal (.arr []))) := by
  constructor
  · intro kvs ns hb hl
    have hne : kvs ≠ [] := dictLookup_some_ne_nil hl
    have htr : (Json.obj kvs).truthy = true := by
      cases kvs with
      | nil => exact absurd rfl hne
      | cons a t => rfl
    refine ⟨?_, ?_, ?_⟩
    · simp only [sort_numbers, sort_numbers_fn, hb, htr, Json.strIndex, hl, asIntList,
        asIntListAux_map, json_content, if_true]
    · exact List.sorted_insertionSort (· ≤ ·) ns
    · exact List.perm_insertionSort (· ≤ ·) ns
  · intro hb
    simp only [sort_numbers, sort_numbers_fn, hb, json_content]
    rfl

/-- Witness for C7 at concrete inputs: sorting `[3, 1, 2]` yields 200
with `[1, 2, 3]`, and a body-less request yields 200 with `[]`. -/
theorem claim_C7_sort_witness :
    sort_numbers reqSortOk
      = .ok (200, dumpsVal (.arr ((pySorted [3, 1, 2]).map Json.num))) ∧
    sort_numbers reqDeleteSort = .ok (200, dumpsVal (.arr [])) :=
  ⟨((claim_C7_sort reqSortOk).1 _ [3, 1, 2] rfl rfl).1,
   (claim_C7_sort reqDeleteSort).2 rfl⟩

/-- C8: the movies handler compares the last `/`-separated segment of
the resource against the `Title` field of each record in order: if no
record's title matches it returns 404 `Not Found`, and the first
matching record is returned as 200 with the record's JSON object. -/
theorem claim_C8_movies (db : CsvTable) (r : Request) :
    ((∀ row ∈ db.rows, ∃ t,
        dictLookup (rowDict db.fields row) ("Title".toList) = some t ∧
        t ≠ (pySplit ['/'] r.resource).getLastD []) →
      search_movie_title db r = .ok (404, "Not Found".toList)) ∧
    (∀ rows1 row rows2, db.rows = rows1 ++ row :: rows2 →
      (∀ row1 ∈ rows1, ∃ t,
        dictLookup (rowDict db.fields row1) ("Title".toList) = some t ∧
        t ≠ (pySplit ['/'] r.resource).getLastD []) →
      dictLookup (rowDict db.fields row) ("Title".toList)
        = some ((pySplit ['/'] r.resource).getLastD []) →
      search_movie_title db r = .ok (200, dumpsVal (rowJson db.fields row))) := by
  constructor
  · intro h
    have hscan := movieScan_none db.fields ((pySplit ['/'] r.resource).getLastD [])
      db.rows h
    simp only [search_movie_title, search_movie_title_fn, hscan, json_content]
  · intro rows1 row rows2 hrows hpre hrow
    have hscan := movieScan_found db.fields ((pySplit ['/'] r.resource).getLastD [])
      row rows2 hrow rows1 hpre
    simp only [search_movie_title, search_movie_title_fn, hrows, hscan, json_content]

/-- Witness for C8 at concrete inputs: in a two-row table, the title
`Beta` matches the second record and is returned with all its fields;
a `Gamma` lookup in the same table yields 404. -/
theorem claim_C8_movies_witness :
    search_movie_title dbEx reqMovieBeta
      = .ok (200, dumpsVal (rowJson dbEx.fields ["Beta".toList, "2000".toList])) :=
  (claim_C8_movies dbEx reqMovieBeta).2 [["Alpha".toList, "1999".toList]]
    ["Beta".toList, "2000".toList] [] rfl
    (fun row1 h1 => by
      rw [List.mem_singleton] at h1
      subst h1
      exact ⟨"Alpha".toList, rfl, by decide⟩)
    rfl

/-- C9: every response the dispatcher produces carries a
`Content-Length` header equal to the number of characters of its body
string — the semantic length before UTF-8 encoding. -/
theorem claim_C9_content_length (cfg : ServerCfg) (db : CsvTable) (now : Str)
    (r : Request) (resp : Response) (h : handle_request cfg db now r = .ok resp) :
    dictLookup resp.headers ("Content-Length".toList) = some (.n resp.body.length) := by
  rw [handle_request_headers_shape cfg db now r resp h]
  have h1 : ¬("Content-Type".toList = "Content-Length".toList) := by decide
  have h2 : ¬("Host".toList = "Content-Length".toList) := by decide
  have h3 : ¬("Date".toList = "Content-Length".toList) := by decide
  simp only [generate_response_headers, dictLookup, if_neg h1, if_neg h2, if_neg h3]
  rfl

/-- Witness for C9 at a concrete input: the 404 response for an unknown
collection has `Content-Length` 9, the length of `Not Found`. -/
theorem claim_C9_content_length_witness :
    dictLookup respUnknownEx.headers ("Content-Length".toList)
      = some (.n respUnknownEx.body.length) :=
  claim_C9_content_length cfgEx dbEx nowEx reqUnknown respUnknownEx rfl

/-- C10: a POST `/sort` request whose truthy JSON body lacks the key
`input` is decodable from the wire, yet its handler — and with it the
dispatcher — raises an uncaught `KeyError` instead of returning a
(status, content) pair. -/
theorem claim_C10_sort_keyerror :
    process_request rawSortNoInput = .ok reqSortNoInput ∧
    sort_numbers reqSortNoInput = .error .keyError ∧
    handle_request cfgEx dbEx nowEx reqSortNoInput = .error .keyError :=
  ⟨rfl, rfl, rfl⟩
